import Mathlib

/-!
# Connection manager, start-up, GUI guard and monitor of the synchronisation daemon

A shallow embedding of `cmd/syncthing`: the link dispatcher `listenConnect`,
the dial loop `dialTLS` with its backoff, the repository start-up loops of
`syncthingMain` and `getFreePort` (`main.go`), the CSRF check of the GUI
(`gui_csrf.go`) and the restart loop and output buffers of the monitor
(`monitor.go`).  Calls into packages whose code is not part of the embedded
sources (the model, the file system, the network, the Go library) are explicit
state passing over an abstract world, and every call that matters is recorded
in an effect trace.  The ignore matcher and the tree scanner, of which only
the tests are among the sources, are modelled from the specification.
-/

namespace Syncthing

/-! ## Data model -/

/-- The identity `protocol.NodeID` of a device; only equality is ever used. -/
abbrev NodeID := Nat

/-- An `x509.Certificate`, reduced to its raw bytes. -/
structure Certificate where
  Raw : List Nat
deriving DecidableEq, Repr

/-- A `*tls.Conn` after the handshake: `ptr` is the identity of the Go value,
the rest is what `listenConnect` reads from it. -/
structure Conn where
  ptr : Nat
  PeerCertificates : List Certificate
  LocalAddr : String
  RemoteAddr : String
deriving DecidableEq, Repr

/-- The entry `config.NodeConfiguration` of `cfg.Nodes`. -/
structure NodeConfiguration where
  NodeID : NodeID
  Name : String
  Addresses : List String
  Compression : Bool
  CertName : String
deriving DecidableEq, Repr

/-- The two library functions `listenConnect` calls on a certificate:
`protocol.NewNodeID` on the raw bytes and `x509.Certificate.VerifyHostname`
(`true` stands for a nil error). -/
structure Crypto where
  NewNodeID : List Nat → NodeID
  VerifyHostname : Certificate → String → Bool

/-- Modelled from the spec: the connection registry of `model.Model`, whose
code is not among the sources.  The spec knows a live `PeerConnection` per
peer identity, registered by the connection manager; the registry is the list
of live connections in the order they were registered, and nothing in the
representation prevents two entries for one identity. -/
structure Model where
  protoConn : List (NodeID × Conn)
deriving DecidableEq, Repr

/-- Modelled from the spec: `model.NewModel` starts with no live connection. -/
def NewModel : Model := ⟨[]⟩

/-- Modelled from the spec: `m.ConnectedTo(nodeID)` tells whether a live
connection to the peer is registered. -/
def Model.ConnectedTo (m : Model) (nodeID : NodeID) : Bool :=
  m.protoConn.any (fun p => p.1 == nodeID)

/-- Modelled from the spec: `m.AddConnection(conn, protoConn)` registers the
connection under the peer identity of `protoConn`. -/
def Model.AddConnection (m : Model) (nodeID : NodeID) (conn : Conn) : Model :=
  ⟨m.protoConn ++ [(nodeID, conn)]⟩

/-- What `listenConnect` does to the outside for one link.  Plain log lines
are left out; the two events sent to `events.Default` are kept. -/
inductive LinkEffect where
  | Close (conn : Conn)
  | NodeRejected (node : NodeID) (address : String)
  | NodeConnected (id : NodeID) (addr : String)
  | AddConnection (conn : Conn) (remoteID : NodeID) (compression : Bool)
deriving DecidableEq, Repr

/-! ## `listenConnect` -/

/-- The name a certificate is verified against for a configured node. -/
def certName (nodeCfg : NodeConfiguration) : String :=
  if nodeCfg.CertName = "" then "syncthing" else nodeCfg.CertName

/-- The inner loop `for _, nodeCfg := range cfg.Nodes` of `listenConnect`,
followed by the code after it, which runs when no entry took the link. -/
def listenConnectNodes (cr : Crypto) (m : Model) (conn : Conn) (remoteCert : Certificate)
    (remoteID : NodeID) : List NodeConfiguration → Model × List LinkEffect
  | [] => (m, [LinkEffect.NodeRejected remoteID conn.RemoteAddr, LinkEffect.Close conn])
  | nodeCfg :: rest =>
    if nodeCfg.NodeID = remoteID then
      if cr.VerifyHostname remoteCert (certName nodeCfg) then
        (m.AddConnection remoteID conn,
          [LinkEffect.NodeConnected remoteID conn.RemoteAddr,
           LinkEffect.AddConnection conn remoteID nodeCfg.Compression])
      else
        (m, [LinkEffect.Close conn])
    else
      listenConnectNodes cr m conn remoteCert remoteID rest

/-- The body of the loop `for conn := range conns` of `listenConnect`. -/
def listenConnectNext (cr : Crypto) (cfgNodes : List NodeConfiguration) (myID : NodeID)
    (m : Model) (conn : Conn) : Model × List LinkEffect :=
  match conn.PeerCertificates with
  | [remoteCert] =>
    let remoteID := cr.NewNodeID remoteCert.Raw
    if remoteID = myID then
      (m, [LinkEffect.Close conn])
    else if m.ConnectedTo remoteID then
      (m, [LinkEffect.Close conn])
    else
      listenConnectNodes cr m conn remoteCert remoteID cfgNodes
  | _ => (m, [LinkEffect.Close conn])

/-- The loop of `listenConnect` over the links that arrive on the channel
`conns`, in the order they arrive. -/
def listenConnect (cr : Crypto) (cfgNodes : List NodeConfiguration) (myID : NodeID)
    (m : Model) : List Conn → Model × List LinkEffect
  | [] => (m, [])
  | conn :: rest =>
    let r := listenConnectNext cr cfgNodes myID m conn
    let r2 := listenConnect cr cfgNodes myID r.1 rest
    (r2.1, r.2 ++ r2.2)

/-! ## `dialTLS`: the backoff delay -/

/-- The value a Go `int64` holds after an arithmetic result `x`: two's
complement wrap-around. -/
def wrapInt64 (x : Int) : Int :=
  (x + 9223372036854775808) % 18446744073709551616 - 9223372036854775808

/-- The constant `time.Second`, in nanoseconds as a `time.Duration`. -/
def Second : Int := 1000000000

/-- The ceiling `maxD := time.Duration(cfg.Options.ReconnectIntervalS) * time.Second`:
the option is a Go `int`, converted to the `int64` of a `time.Duration` and
multiplied there. -/
def maxD (ReconnectIntervalS : Int) : Int :=
  wrapInt64 (wrapInt64 ReconnectIntervalS * Second)

/-- The update of `delay` after the sleep of a dial round:
`delay *= 2; if maxD := ...; delay > maxD { delay = maxD }`. -/
def nextDelay (ReconnectIntervalS : Int) (delay : Int) : Int :=
  if wrapInt64 (delay * 2) > maxD ReconnectIntervalS then maxD ReconnectIntervalS
  else wrapInt64 (delay * 2)

/-! ## `dialTLS`: the address of a dial attempt -/

/-- The helper `last(s, b)` of package `net`: the index of the last `b` in
`s`, scanning from the end; `none` stands for `-1`.  The argument is the
string reversed. -/
def lastRev (b : Char) : List Char → Option Nat
  | [] => none
  | c :: r => if c = b then some r.length else lastRev b r

/-- The index of the last occurrence, `net.last`. -/
def last (s : List Char) (b : Char) : Option Nat := lastRev b s.reverse

/-- The helper `byteIndex(s, c)` of package `net`: the index of the first `c`
in `s`; `none` stands for `-1`. -/
def byteIndex (s : List Char) (c : Char) : Option Nat :=
  if c ∈ s then some (s.indexOf c) else none

/-- The error `*net.AddrError`. -/
structure AddrError where
  Err : List Char
  Addr : List Char
deriving DecidableEq, Repr

/-- The text `(*AddrError).Error()` of package `net`: the message alone for an
empty address, and otherwise `address`, the address, a colon and the
message. -/
def AddrError.Error (e : AddrError) : List Char :=
  if e.Addr = [] then e.Err else "address ".data ++ e.Addr ++ ": ".data ++ e.Err

/-- The end of `net.SplitHostPort`, after `host`, `j` and `k` are set. -/
def splitHostPortTail (hostport host : List Char) (i j k : Nat) :
    Except AddrError (List Char × List Char) :=
  if (byteIndex (hostport.drop j) '[').isSome then
    .error ⟨"unexpected '[' in address".data, hostport⟩
  else if (byteIndex (hostport.drop k) ']').isSome then
    .error ⟨"unexpected ']' in address".data, hostport⟩
  else
    .ok (host, hostport.drop (i + 1))

/-- The library function `net.SplitHostPort` on the characters of the address.
Every index it computes is the position of one of the ASCII characters
`:`, `[`, `]`, so slicing by character agrees with Go's slicing by byte. -/
def SplitHostPort (hostport : List Char) : Except AddrError (List Char × List Char) :=
  match last hostport ':' with
  | none => .error ⟨"missing port in address".data, hostport⟩
  | some i =>
    if hostport.head? = some '[' then
      match byteIndex hostport ']' with
      | none => .error ⟨"missing ']' in address".data, hostport⟩
      | some e =>
        if e + 1 = hostport.length then
          .error ⟨"missing port in address".data, hostport⟩
        else if e + 1 = i then
          splitHostPortTail hostport ((hostport.take e).drop 1) i 1 (e + 1)
        else if hostport.get? (e + 1) = some ':' then
          .error ⟨"too many colons in address".data, hostport⟩
        else
          .error ⟨"missing port in address".data, hostport⟩
    else
      if (byteIndex (hostport.take i) ':').isSome then
        .error ⟨"too many colons in address".data, hostport⟩
      else
        splitHostPortTail hostport (hostport.take i) i 0 0

/-- The library function `net.JoinHostPort`: a host with a colon is taken for
an IPv6 literal and put in brackets. -/
def JoinHostPort (host port : List Char) : List Char :=
  if (byteIndex host ':').isSome then
    '[' :: host ++ ']' :: ':' :: port
  else
    host ++ ':' :: port

/-- The library function `strings.HasPrefix`. -/
def HasPrefix (s pre : List Char) : Bool := pre.isPrefixOf s

/-- The address `dialTLS` hands to `net.ResolveTCPAddr` for a candidate
`addr`: the port 22000 is filled in when the text of the error of
`SplitHostPort` starts with `missing port`, or when the port it returns is
empty. -/
def dialAddr (addr : List Char) : List Char :=
  match SplitHostPort addr with
  | .error err =>
    if HasPrefix err.Error "missing port".data then JoinHostPort addr "22000".data else addr
  | .ok (host, port) =>
    if port = [] then JoinHostPort host "22000".data else addr

/-! ## `dialTLS`: the dial rounds -/

/-- What `dialTLS` does to the outside: an attempt on an address for a node,
a link handed to the dispatcher through `conns`, and the sleep that ends a
round. -/
inductive DialEffect where
  | Dial (nodeID : NodeID) (addr : String)
  | Send (tc : Conn)
  | Sleep (delay : Int)
deriving DecidableEq, Repr

/-- The surroundings of `dialTLS` over a world `σ` that every call may change:
the shared model (`ConnectedTo`), the discoverer (`none` when the variable
`discoverer` is nil), the network, the channel and the clock.  `Dial` stands
for `net.ResolveTCPAddr`, `net.DialTCP` and the TLS client handshake on one
address: it yields the link when all three succeed, and each of the three
failures leaves the attempt through the same `continue`. -/
structure Net (σ : Type) where
  ConnectedTo : σ → NodeID → σ × Bool
  discoverer : Option (σ → NodeID → σ × List String)
  Dial : σ → String → σ × Option Conn
  Send : σ → Conn → σ
  Sleep : σ → Int → σ

/-- The loop `for _, addr := range nodeCfg.Addresses` that collects `addrs`. -/
def dialTLSAddrs {σ : Type} (N : Net σ) (nodeID : NodeID) (w : σ) :
    List String → σ × List String
  | [] => (w, [])
  | addr :: rest =>
    if addr = "dynamic" then
      match N.discoverer with
      | some Lookup =>
        let t := Lookup w nodeID
        let r := dialTLSAddrs N nodeID t.1 rest
        (r.1, t.2 ++ r.2)
      | none => dialTLSAddrs N nodeID w rest
    else
      let r := dialTLSAddrs N nodeID w rest
      (r.1, addr :: r.2)

/-- The loop `for _, addr := range addrs` that dials the candidates of one
node and stops at the first link established. -/
def dialTLSDial {σ : Type} (N : Net σ) (nodeID : NodeID) (w : σ) :
    List String → σ × List DialEffect
  | [] => (w, [])
  | addr :: rest =>
    let a := String.mk (dialAddr addr.data)
    let d := N.Dial w a
    match d.2 with
    | some tc => (N.Send d.1 tc, [DialEffect.Dial nodeID a, DialEffect.Send tc])
    | none =>
      let r := dialTLSDial N nodeID d.1 rest
      (r.1, DialEffect.Dial nodeID a :: r.2)

/-- The loop `for _, nodeCfg := range cfg.Nodes` of one dial round. -/
def dialTLSNodes {σ : Type} (N : Net σ) (myID : NodeID) (w : σ) :
    List NodeConfiguration → σ × List DialEffect
  | [] => (w, [])
  | nodeCfg :: rest =>
    if nodeCfg.NodeID = myID then
      dialTLSNodes N myID w rest
    else
      let c := N.ConnectedTo w nodeCfg.NodeID
      if c.2 then
        dialTLSNodes N myID c.1 rest
      else
        let a := dialTLSAddrs N nodeCfg.NodeID c.1 nodeCfg.Addresses
        let d := dialTLSDial N nodeCfg.NodeID a.1 a.2
        let r := dialTLSNodes N myID d.1 rest
        (r.1, d.2 ++ r.2)

/-- The outer `for` of `dialTLS`, cut after `rounds` rounds: the loop never
ends by itself, so the trace of every finite number of rounds is given. -/
def dialTLSLoop {σ : Type} (N : Net σ) (cfgNodes : List NodeConfiguration) (myID : NodeID)
    (ReconnectIntervalS : Int) : Nat → σ → Int → List DialEffect
  | 0, _, _ => []
  | rounds + 1, w, delay =>
    let r := dialTLSNodes N myID w cfgNodes
    r.2 ++ DialEffect.Sleep delay ::
      dialTLSLoop N cfgNodes myID ReconnectIntervalS rounds (N.Sleep r.1 delay)
        (nextDelay ReconnectIntervalS delay)

/-- The trace of the first `rounds` rounds of `dialTLS`, which starts with
`delay = 1 * time.Second`. -/
def dialTLS {σ : Type} (N : Net σ) (cfgNodes : List NodeConfiguration) (myID : NodeID)
    (ReconnectIntervalS : Int) (rounds : Nat) (w : σ) : List DialEffect :=
  dialTLSLoop N cfgNodes myID ReconnectIntervalS rounds w (1 * Second)

/-- The delays slept in a trace, in order. -/
def sleeps : List DialEffect → List Int
  | [] => []
  | DialEffect.Sleep d :: rest => d :: sleeps rest
  | _ :: rest => sleeps rest

/-! ## `syncthingMain`: the repositories at start-up -/

/-- The entry `config.RepositoryConfiguration` of `cfg.Repositories`; `Nodes`
holds what `NodeIDs()` returns. -/
structure RepositoryConfiguration where
  ID : String
  Directory : String
  Nodes : List NodeID
  ReadOnly : Bool
  Invalid : String
deriving DecidableEq, Repr

/-- The error `*os.PathError` that `os.Stat` and `os.MkdirAll` return;
`IsNotExist` is what `os.IsNotExist` answers for it. -/
structure PathError where
  Op : String
  Path : String
  Err : String
  IsNotExist : Bool
deriving DecidableEq, Repr

/-- The text `(*PathError).Error()`: operation, path, a colon and the cause. -/
def PathError.Error (e : PathError) : String :=
  e.Op ++ " " ++ e.Path ++ ": " ++ e.Err

/-- The `os.FileInfo` of a successful `os.Stat`, reduced to `IsDir()`. -/
structure FileInfo where
  IsDir : Bool
deriving DecidableEq, Repr

/-- The surroundings of the start-up loops over a world `σ` (file system,
database and model): `Stat` and `LocalVersion` read it, `MkdirAll` and
`AddRepo` change it.  `expandTilde` depends on the environment only. -/
structure Sys (σ : Type) where
  expandTilde : String → String
  Stat : σ → String → Except PathError FileInfo
  MkdirAll : σ → String → σ × Option PathError
  LocalVersion : σ → String → Nat
  AddRepo : σ → RepositoryConfiguration → σ

/-- The calls of the start-up loops that the claims speak of. -/
inductive StartEffect where
  | MkdirAll (dir : String)
  | AddRepo (repo : RepositoryConfiguration)
  | Index (node : NodeID) (repo : String)
  | CleanRepos
  | ScanRepos
  | StartRepoRO (repo : String)
  | StartRepoRW (repo : String) (threads : Int)
deriving DecidableEq, Repr

/-- The end of the body of the loop `nextRepo`, from `if err != nil` on:
`entry` is `cfg.Repositories[i]` and `repo` the loop copy with the directory
expanded. -/
def nextRepoAdd {σ : Type} (S : Sys σ) (w : σ) (entry repo : RepositoryConfiguration)
    (err : Option PathError) (done : List StartEffect) :
    σ × RepositoryConfiguration × List StartEffect :=
  match err with
  | some e => (w, { entry with Invalid := e.Error }, done)
  | none => (S.AddRepo w repo, entry, done ++ [StartEffect.AddRepo repo])

/-- The body of the loop `nextRepo: for i, repo := range cfg.Repositories`:
the new world, the new `cfg.Repositories[i]` and the calls made. -/
def nextRepoBody {σ : Type} (S : Sys σ) (w : σ) (entry : RepositoryConfiguration) :
    σ × RepositoryConfiguration × List StartEffect :=
  if entry.Invalid ≠ "" then
    (w, entry, [])
  else
    let repo := { entry with Directory := S.expandTilde entry.Directory }
    match S.Stat w repo.Directory with
    | .ok fi =>
      if S.LocalVersion w repo.ID > 0 then
        if !fi.IsDir then
          (w, { entry with Invalid := "repo directory missing" }, [])
        else
          nextRepoAdd S w entry repo none []
      else
        nextRepoAdd S w entry repo none []
    | .error err =>
      if S.LocalVersion w repo.ID > 0 then
        (w, { entry with Invalid := "repo directory missing" }, [])
      else if err.IsNotExist then
        let r := S.MkdirAll w repo.Directory
        nextRepoAdd S r.1 entry repo r.2 [StartEffect.MkdirAll repo.Directory]
      else
        nextRepoAdd S w entry repo (some err) []

/-- The loop `nextRepo` over `cfg.Repositories`: the world after it, the
repositories as the loop leaves them, and the calls made. -/
def nextRepo {σ : Type} (S : Sys σ) (w : σ) :
    List RepositoryConfiguration → σ × List RepositoryConfiguration × List StartEffect
  | [] => (w, [], [])
  | entry :: rest =>
    let b := nextRepoBody S w entry
    let r := nextRepo S b.1 rest
    (r.1, b.2.1 :: r.2.1, b.2.2 ++ r.2.2)

/-- The body of the loop that clears the old indexes of the other nodes. -/
def clearIndexBody (myID : NodeID) (repoCfg : RepositoryConfiguration) : List StartEffect :=
  if repoCfg.Invalid ≠ "" then []
  else (repoCfg.Nodes.filter (fun node => node ≠ myID)).map
    (fun node => StartEffect.Index node repoCfg.ID)

/-- The body of the loop that starts the repositories. -/
def startRepoBody (ParallelRequests : Int) (repo : RepositoryConfiguration) : List StartEffect :=
  if repo.Invalid ≠ "" then []
  else if repo.ReadOnly then [StartEffect.StartRepoRO repo.ID]
  else [StartEffect.StartRepoRW repo.ID ParallelRequests]

/-- The repositories through `syncthingMain`: the loop `nextRepo`, the loop
that clears the indexes, `m.CleanRepos()` and `m.ScanRepos()`, and the loop
that starts the repositories, each over `cfg.Repositories` as `nextRepo` left
it.  The result is the final `cfg.Repositories` and the calls in order. -/
def syncthingMainRepos {σ : Type} (S : Sys σ) (myID : NodeID) (ParallelRequests : Int)
    (w : σ) (cfgRepositories : List RepositoryConfiguration) :
    List RepositoryConfiguration × List StartEffect :=
  let r := nextRepo S w cfgRepositories
  (r.2.1,
    r.2.2 ++ r.2.1.flatMap (clearIndexBody myID)
      ++ [StartEffect.CleanRepos, StartEffect.ScanRepos]
      ++ r.2.1.flatMap (startRepoBody ParallelRequests))

/-- The repository identifier a sync call is made for, if it is one. -/
def StartEffect.repoID : StartEffect → Option String
  | StartEffect.AddRepo repo => some repo.ID
  | StartEffect.Index _ repo => some repo
  | StartEffect.StartRepoRO repo => some repo
  | StartEffect.StartRepoRW repo _ => some repo
  | _ => none

/-! ## Ignore matcher -/

/-- Modelled from the spec: a path relative to the folder root, as the list of
its components; the code of the ignore package is not among the sources. -/
abbrev Path := List String

/-- The pieces of a text between the occurrences of a separator. -/
def splitAtChar (sep : Char) : List Char → List (List Char)
  | [] => [[]]
  | c :: cs =>
    if c = sep then [] :: splitAtChar sep cs
    else
      match splitAtChar sep cs with
      | h :: t => (c :: h) :: t
      | [] => [[c]]

/-- The components of a relative path written with `/`. -/
def toPath (file : String) : Path := (splitAtChar '/' file.data).map String.mk

/-- The text of a path: its components joined by `/`. -/
def joinPath (p : Path) : List Char := List.intercalate ['/'] (p.map String.data)

/-- Modelled from the spec: the items of a compiled glob, which supports `*`,
`?` and character classes `[...]`. -/
inductive GlobItem where
  | lit (c : Char)
  | anyChar
  | star
  | cls (negated : Bool) (ranges : List (Char × Char))
deriving DecidableEq, Repr

/-- The members of a character class: single characters and ranges `a-z`. -/
def classRanges : List Char → List (Char × Char)
  | [] => []
  | [a] => [(a, a)]
  | [a, b] => [(a, a), (b, b)]
  | a :: b :: c :: rest =>
    if b = '-' then (a, c) :: classRanges rest else (a, a) :: classRanges (b :: c :: rest)

/-- The class written between `[` and `]`; a leading `!` or `^` negates it. -/
def mkClass (raw : List Char) : GlobItem :=
  match raw with
  | c :: rest =>
    if c = '!' ∨ c = '^' then GlobItem.cls true (classRanges rest)
    else GlobItem.cls false (classRanges raw)
  | [] => GlobItem.cls false []

/-- Modelled from the spec: the compilation of a glob, one character at a
time; the first argument holds the characters of the class being read, in
reverse, when inside `[...]`.  A text that ends inside a class does not
compile: the character class is unterminated. -/
def compileGlobFrom : Option (List Char) → List Char → Option (List GlobItem)
  | none, [] => some []
  | some _, [] => none
  | none, c :: cs =>
    if c = '[' then compileGlobFrom (some []) cs
    else
      (compileGlobFrom none cs).map
        (fun g => (if c = '*' then GlobItem.star
          else if c = '?' then GlobItem.anyChar else GlobItem.lit c) :: g)
  | some raw, c :: cs =>
    if c = ']' ∧ raw ≠ [] then
      (compileGlobFrom none cs).map (fun g => mkClass raw.reverse :: g)
    else compileGlobFrom (some (c :: raw)) cs

/-- The compiled glob of a pattern, if the pattern is well formed. -/
def compileGlob (pattern : List Char) : Option (List GlobItem) := compileGlobFrom none pattern

/-- Whether a character is in one of the ranges of a class. -/
def classHas (ranges : List (Char × Char)) (c : Char) : Bool :=
  ranges.any (fun r => decide (r.1 ≤ c) && decide (c ≤ r.2))

/-- A `*`: the rest of the glob matches after some characters, none of them a
path separator. -/
def starMatch (k : List Char → Bool) : List Char → Bool
  | [] => k []
  | c :: cs => k (c :: cs) || (c != '/' && starMatch k cs)

/-- Modelled from the spec: the glob match of a whole text; `?`, `*` and a
class do not match the path separator. -/
def globMatch : List GlobItem → List Char → Bool
  | [], s => s.isEmpty
  | GlobItem.star :: g, s => starMatch (globMatch g) s
  | GlobItem.lit a :: g, c :: cs => a == c && globMatch g cs
  | GlobItem.anyChar :: g, c :: cs => c != '/' && globMatch g cs
  | GlobItem.cls negated ranges :: g, c :: cs =>
    c != '/' && (classHas ranges c != negated) && globMatch g cs
  | _ :: _, [] => false

/-- Modelled from the spec: an ignore rule, with the raw pattern text, the
flag `anchored` (the pattern contains a path separator), the flag `negated`
(the pattern was prefixed with `!`) and the compiled glob. -/
structure IgnoreRule where
  pattern : String
  anchored : Bool
  negated : Bool
  glob : List GlobItem
deriving DecidableEq, Repr

/-- The rule of a pattern, if its glob compiles. -/
def mkRule (negated : Bool) (pattern : List Char) : Option IgnoreRule :=
  (compileGlob pattern).map
    (fun g => ⟨String.mk pattern, decide ('/' ∈ pattern), negated, g⟩)

/-- Modelled from the spec: the test of a rule against one path: an anchored
rule matches the full relative path, an unanchored one the final component. -/
def IgnoreRule.matchesPath (r : IgnoreRule) (p : Path) : Bool :=
  if r.anchored then globMatch r.glob (joinPath p)
  else
    match p.getLast? with
    | some base => globMatch r.glob base.data
    | none => false

/-- The path itself and then every ancestor directory of it, nearest first. -/
def tested (p : Path) : List Path :=
  (List.range p.length).map (fun k => p.take (p.length - k))

/-- Modelled from the spec: a rule is tested against the candidate path and
against every ancestor directory of it. -/
def IgnoreRule.hits (r : IgnoreRule) (p : Path) : Bool := (tested p).any r.matchesPath

/-- Modelled from the spec: the walk over the rule list in file order; the
first rule that matches decides, a plain rule for ignored and a negated one
for not ignored, and no match at all means not ignored. -/
def matchPath : List IgnoreRule → Path → Bool
  | [], _ => false
  | r :: rest, p => if r.hits p then !r.negated else matchPath rest p

/-- Modelled from the spec: `Match(relativePath)` of a loaded matcher. -/
def Match (pats : List IgnoreRule) (file : String) : Bool := matchPath pats (toPath file)

/-- Modelled from the spec: the ways loading a rule file fails. -/
inductive ParseError where
  | badPattern (line : String)
  | includeMissing (file : String)
  | includeCycle (file : String)
  | negatedInclude (line : String)
  | includeDepth
deriving DecidableEq, Repr

/-- The rule files that exist, by name relative to the root, with their text,
and the comment prefix, which the spec leaves open. -/
structure RuleFiles where
  comment : List Char
  files : List (String × String)

/-- A line without the white space around it. -/
def trimLine (l : List Char) : List Char :=
  ((l.dropWhile Char.isWhitespace).reverse.dropWhile Char.isWhitespace).reverse

/-- The directive that pulls in another rule file. -/
def includePrefix : List Char := "#include ".data

/-- Modelled from the spec: one line of a rule file.  Blank lines and comments
give no rule, `#include` gives the rules of the file it names through
`incl`, a negated `#include` is an error, and a pattern gives one rule
unless its glob does not compile. -/
def parseLine (F : RuleFiles) (incl : String → Except ParseError (List IgnoreRule))
    (raw : List Char) : Except ParseError (List IgnoreRule) :=
  if trimLine raw = [] then .ok []
  else if includePrefix.isPrefixOf (trimLine raw) then
    incl (String.mk (trimLine ((trimLine raw).drop includePrefix.length)))
  else if F.comment ≠ [] ∧ F.comment.isPrefixOf (trimLine raw) then .ok []
  else if (trimLine raw).head? = some '!' then
    if includePrefix.isPrefixOf ((trimLine raw).drop 1) then
      .error (ParseError.negatedInclude (String.mk (trimLine raw)))
    else
      match mkRule true ((trimLine raw).drop 1) with
      | some r => .ok [r]
      | none => .error (ParseError.badPattern (String.mk (trimLine raw)))
  else
    match mkRule false (trimLine raw) with
    | some r => .ok [r]
    | none => .error (ParseError.badPattern (String.mk (trimLine raw)))

/-- The lines of a rule file in order: the rules of all lines, or the first
error. -/
def parseLines (F : RuleFiles) (incl : String → Except ParseError (List IgnoreRule)) :
    List (List Char) → Except ParseError (List IgnoreRule)
  | [] => .ok []
  | l :: rest =>
    match parseLine F incl l with
    | .error e => .error e
    | .ok rs =>
      match parseLines F incl rest with
      | .error e => .error e
      | .ok rs2 => .ok (rs ++ rs2)

/-- Modelled from the spec: the rules of a text, where `seen` holds the files
being read, so that an `#include` of one of them is a cycle; an `#include` of
a file that does not exist fails as well.  The first argument bounds the depth
of inclusion. -/
def parseText (F : RuleFiles) : Nat → List String → List (List Char) →
    Except ParseError (List IgnoreRule)
  | 0, _, _ => .error ParseError.includeDepth
  | depth + 1, seen, lines =>
    parseLines F
      (fun file =>
        if file ∈ seen then .error (ParseError.includeCycle file)
        else
          match F.files.lookup file with
          | none => .error (ParseError.includeMissing file)
          | some text => parseText F depth (file :: seen) (splitAtChar '\n' text.data))
      lines

/-- Modelled from the spec: `Parse(source, name)`: the rules of the text of
the file `name`, or a parse error and no rule at all. -/
def Parse (F : RuleFiles) (text : String) (name : String) :
    Except ParseError (List IgnoreRule) :=
  parseText F (F.files.length + 1) [name] (splitAtChar '\n' text.data)

/-- Modelled from the spec: `Load(file)`: the rules of an existing rule file. -/
def Load (F : RuleFiles) (file : String) : Except ParseError (List IgnoreRule) :=
  match F.files.lookup file with
  | none => .error (ParseError.includeMissing file)
  | some text => Parse F text file

/-- The pattern text of a trimmed line: the line without a leading `!`. -/
def patternOf (line : List Char) : List Char :=
  if line.head? = some '!' then line.drop 1 else line

/-- The file an `#include` line names. -/
def includeTarget (line : List Char) : String :=
  String.mk (trimLine (line.drop includePrefix.length))

/-- The four kinds of malformed line in the text of the rule file `name`: a
pattern whose character class is unterminated, an `#include` of a file that
does not exist, an `#include` of the file being parsed, and a negated
`#include`. -/
def Malformed (F : RuleFiles) (name : String) (raw : List Char) : Prop :=
  (trimLine raw ≠ [] ∧ includePrefix.isPrefixOf (trimLine raw) = false ∧
    ¬ (F.comment ≠ [] ∧ F.comment.isPrefixOf (trimLine raw)) ∧
    ((trimLine raw).head? = some '!' →
      includePrefix.isPrefixOf ((trimLine raw).drop 1) = false) ∧
    compileGlob (patternOf (trimLine raw)) = none) ∨
  (includePrefix.isPrefixOf (trimLine raw) = true ∧
    F.files.lookup (includeTarget (trimLine raw)) = none) ∨
  (includePrefix.isPrefixOf (trimLine raw) = true ∧ includeTarget (trimLine raw) = name) ∨
  (¬ (F.comment ≠ [] ∧ F.comment.isPrefixOf (trimLine raw)) ∧
    (trimLine raw).head? = some '!' ∧
    includePrefix.isPrefixOf ((trimLine raw).drop 1) = true)

/-! ## Tree scanner -/

/-- Modelled from the spec: the content of a directory, entry by entry.  The
code of the scanner is not among the sources; the tree stands for the
directory tree it walks. -/
inductive Tree where
  | nil
  | file (name : String) (content : List Nat) (rest : Tree)
  | symlink (name : String) (target : String) (rest : Tree)
  | dir (name : String) (children : Tree) (rest : Tree)
deriving DecidableEq, Repr

/-- What a walk finds at its root: nothing, something that is not a
directory, or a directory with its content. -/
inductive Root where
  | missing
  | notDirectory
  | directory (content : Tree)
deriving DecidableEq, Repr

/-- Modelled from the spec: the kind of a `FileEntry`. -/
inductive EntryKind where
  | regular
  | directory
  | symlink
deriving DecidableEq, Repr

/-- Modelled from the spec: a `Block`: its byte length and its content hash. -/
structure Block where
  size : Nat
  hash : List Nat
deriving DecidableEq, Repr

/-- Modelled from the spec: a `FileEntry`: the relative path, the kind, the
size and, for a regular file only, the blocks. -/
structure FileEntry where
  path : Path
  kind : EntryKind
  size : Nat
  blocks : List Block
deriving DecidableEq, Repr

/-- The name of an entry: its relative path written with `/`. -/
def FileEntry.Name (f : FileEntry) : String := String.mk (joinPath f.path)

/-- Modelled from the spec: the content split into consecutive blocks of
`blockSize` bytes, the last one possibly shorter, each with the hash of its
bytes. -/
def hashBlocks (hash : List Nat → List Nat) (blockSize : Nat) (content : List Nat) :
    List Block :=
  (content.toChunks blockSize).map (fun b => ⟨b.length, hash b⟩)

/-- Modelled from the spec: the walk of the content of the directory at
`parent`.  A path for which the matcher answers true is skipped, and a skipped
directory is not descended into; every other file and directory gives an
entry. -/
def walkTree (isIgnored : Path → Bool) (hash : List Nat → List Nat) (blockSize : Nat)
    (parent : Path) : Tree → List FileEntry
  | Tree.nil => []
  | Tree.file name content rest =>
    (if isIgnored (parent ++ [name]) then []
      else [⟨parent ++ [name], EntryKind.regular, content.length,
        hashBlocks hash blockSize content⟩]) ++
      walkTree isIgnored hash blockSize parent rest
  | Tree.symlink name _ rest =>
    (if isIgnored (parent ++ [name]) then []
      else [⟨parent ++ [name], EntryKind.symlink, 0, []⟩]) ++
      walkTree isIgnored hash blockSize parent rest
  | Tree.dir name children rest =>
    (if isIgnored (parent ++ [name]) then []
      else ⟨parent ++ [name], EntryKind.directory, 0, []⟩ ::
        walkTree isIgnored hash blockSize (parent ++ [name]) children) ++
      walkTree isIgnored hash blockSize parent rest

/-- Modelled from the spec: the two failures of a walk. -/
inductive WalkError where
  | rootMissing
  | rootNotDirectory
deriving DecidableEq, Repr

/-- Modelled from the spec: the `Walker` with its root (what is found at
`Dir`), the optional sub-path `Sub` (empty when not set), the block size and
the matcher loaded at the root. -/
structure Walker where
  Dir : Root
  Sub : Path
  BlockSize : Nat
  Ignores : Path → Bool

/-- Modelled from the spec: `Walk()`: a terminal error when the root does not
exist or is not a directory, and otherwise the entries of the walk from the
root, scoped to the sub-path: those at or under it. -/
def Walker.Walk (w : Walker) (hash : List Nat → List Nat) : Except WalkError (List FileEntry) :=
  match w.Dir with
  | Root.missing => .error WalkError.rootMissing
  | Root.notDirectory => .error WalkError.rootNotDirectory
  | Root.directory content =>
    .ok ((walkTree w.Ignores hash w.BlockSize [] content).filter
      (fun f => w.Sub.isPrefixOf f.path))

/-- The paths of everything in the content of the directory at `parent`, in
the order of the walk. -/
def treePaths (parent : Path) : Tree → List Path
  | Tree.nil => []
  | Tree.file name _ rest => (parent ++ [name]) :: treePaths parent rest
  | Tree.symlink name _ rest => (parent ++ [name]) :: treePaths parent rest
  | Tree.dir name children rest =>
    (parent ++ [name]) :: treePaths (parent ++ [name]) children ++ treePaths parent rest

/-- Whether neither a path nor any ancestor directory of it is matched. -/
def notIgnored (isIgnored : Path → Bool) (p : Path) : Bool :=
  (tested p).all (fun q => !isIgnored q)

/-! ## GUI: the CSRF check -/

/-- The `*http.Request` as `csrfMiddleware` reads it: `Header` is
`r.Header.Get`, which answers the empty string for a header that is not set,
and `Cookie` is `r.Cookie`, which fails for a cookie that is not sent. -/
structure Request where
  Path : String
  Method : String
  Header : String → String
  Cookie : String → Option String

/-- What the handler does with a request: it sets a cookie, hands the request
to the next handler, or answers with an error. -/
inductive HttpEffect where
  | SetCookie (name value : String)
  | Next
  | Error (message : String) (code : Nat)
deriving DecidableEq, Repr

/-- The function `validCsrfToken` over the list `csrfTokens`. -/
def validCsrfToken : List String → String → Bool
  | [], _ => false
  | t :: rest, token => if t = token then true else validCsrfToken rest token

/-- The function `newCsrfToken`: `random` is what `randomString(30)` returns;
the result is the new `csrfTokens` and the token.  The write of the token file
is left out. -/
def newCsrfToken (csrfTokens : List String) (random : String) : List String × String :=
  (if (csrfTokens ++ [random]).length > 10 then
      (csrfTokens ++ [random]).drop ((csrfTokens ++ [random]).length - 10)
    else csrfTokens ++ [random],
   random)

/-- The handler that `csrfMiddleware(prefix, apiKey, next)` returns, applied
to a request: the new `csrfTokens` and what is done with the request. -/
def csrfMiddleware (urlPrefix apiKey : String) (random : String) (csrfTokens : List String)
    (r : Request) : List String × List HttpEffect :=
  if apiKey ≠ "" ∧ r.Header "X-API-Key" = apiKey then
    (csrfTokens, [HttpEffect.Next])
  else if ¬ HasPrefix r.Path.data urlPrefix.data = true then
    match r.Cookie "CSRF-Token" with
    | some value =>
      if validCsrfToken csrfTokens value then (csrfTokens, [HttpEffect.Next])
      else
        ((newCsrfToken csrfTokens random).1,
          [HttpEffect.SetCookie "CSRF-Token" (newCsrfToken csrfTokens random).2, HttpEffect.Next])
    | none =>
      ((newCsrfToken csrfTokens random).1,
        [HttpEffect.SetCookie "CSRF-Token" (newCsrfToken csrfTokens random).2, HttpEffect.Next])
  else if r.Method = "GET" then
    (csrfTokens, [HttpEffect.Next])
  else if ¬ validCsrfToken csrfTokens (r.Header "X-CSRF-Token") = true then
    (csrfTokens, [HttpEffect.Error "CSRF Error" 403])
  else
    (csrfTokens, [HttpEffect.Next])

/-! ## Monitor -/

/-- The two slices `stdoutFirstLines` and `stdoutLastLines`; `monitorMain`
makes them with length 0 and capacity 10 and 50, and neither the slicing nor
the appends below change the capacity. -/
structure Stdout where
  stdoutFirstLines : List String
  stdoutLastLines : List String
deriving DecidableEq, Repr

/-- The body of the loop of `copyStdout` for one line read. -/
def copyStdoutLine (s : Stdout) (line : String) : Stdout :=
  { stdoutFirstLines :=
      if s.stdoutFirstLines.length < 10 then s.stdoutFirstLines ++ [line]
      else s.stdoutFirstLines
    stdoutLastLines :=
      (if s.stdoutLastLines.length = 50 then
          s.stdoutLastLines.take (s.stdoutLastLines.length - 1)
        else s.stdoutLastLines) ++ [line] }

/-- The function `copyStdout` over the lines read until the stream ends. -/
def copyStdout (lines : List String) : Stdout := lines.foldl copyStdoutLine ⟨[], []⟩

/-- The constant `loopThreshold`, 15 seconds as a `time.Duration`. -/
def loopThreshold : Int := 15 * Second

/-- The method `Time.Sub` on instants counted in nanoseconds from the zero
`time.Time`: the difference, kept within the range of a `time.Duration`. -/
def timeSub (t u : Int) : Int :=
  max (-9223372036854775808) (min 9223372036854775807 (t - u))

/-- The loop of `copyStderr` over the lines it reads, each with the success of
`os.Create` should the line call for the panic log: whether the function
reaches `stdoutMut.Lock()`.  No `Unlock` follows that call, so the mutex stays
locked once it is reached; a line is looked at only while `panicFd` is nil,
and a failed `os.Create` leaves it nil. -/
def copyStderr : List (String × Bool) → Bool
  | [] => false
  | (line, created) :: rest =>
    if HasPrefix line.data "panic:".data || HasPrefix line.data "fatal error:".data then
      if created then true else copyStderr rest
    else copyStderr rest

/-- How one round of the loop of `monitorMain` ends after the check: a pipe or
the start of the child fails (`l.Fatalln`), a signal arrives, the child exits
without error, or it exits with an error. -/
inductive ChildEnd where
  | fatal
  | signal
  | exitNil
  | exitErr
deriving DecidableEq, Repr

/-- What one round of the loop of `monitorMain` meets: the clock read by
`time.Since`, the clock read by `time.Now` for `restarts`, the end of the
child, and the lines that the `copyStderr` of the child reads, which it has
done when the loop comes round again, after the child is gone and the loop
has slept a second. -/
structure Round where
  sinceClock : Int
  nowClock : Int
  childEnd : ChildEnd
  stderr : List (String × Bool)
deriving DecidableEq, Repr

/-- What `monitorMain` does: it exits with `exitError`, starts the child (with
the two clock readings of the round), dies in `l.Fatalln`, returns, or waits
for ever in `stdoutMut.Lock()`. -/
inductive MonitorEvent where
  | ExitError
  | Start (sinceClock nowClock : Int)
  | Fatal
  | Return
  | Blocked
deriving DecidableEq, Repr

/-- The loop of `monitorMain` from the array `restarts`, over the rounds that
the clock and the children give it; `locked` says whether a `copyStderr` of an
earlier round holds `stdoutMut`, in which case the `stdoutMut.Lock()` that
follows `cmd.Start()` never returns. -/
def monitorLoop : List Int → Bool → List Round → List MonitorEvent
  | _, _, [] => []
  | restarts, locked, r :: rest =>
    if timeSub r.sinceClock (restarts.headD 0) < loopThreshold then [MonitorEvent.ExitError]
    else if r.childEnd = ChildEnd.fatal then [MonitorEvent.Fatal]
    else if locked then [MonitorEvent.Start r.sinceClock r.nowClock, MonitorEvent.Blocked]
    else if r.childEnd = ChildEnd.exitErr then
      MonitorEvent.Start r.sinceClock r.nowClock ::
        monitorLoop (restarts.drop 1 ++ [r.nowClock]) (copyStderr r.stderr) rest
    else [MonitorEvent.Start r.sinceClock r.nowClock, MonitorEvent.Return]

/-- The function `monitorMain`: `restarts` starts as five zero instants and
the mutex unlocked. -/
def monitorMain (rounds : List Round) : List MonitorEvent :=
  monitorLoop (List.replicate 5 0) false rounds

/-- The clock readings of the starts in a trace, in order. -/
def startsOf : List MonitorEvent → List (Int × Int)
  | [] => []
  | MonitorEvent.Start c t :: rest => (c, t) :: startsOf rest
  | _ :: rest => startsOf rest

/-! ## `getFreePort` -/

/-- The call `net.Listen("tcp", addr)` over a world it may change: the port of
the listener, or the text of the error. -/
structure Listener (σ : Type) where
  Listen : σ → String → σ × Except String Int

/-- The function `getFreePort`: the port and the error it returns, and the
addresses it tried to listen on, in order, each with its success.  The
listeners it closes are left out. -/
def getFreePort {σ : Type} (L : Listener σ) (host : String) (w : σ) :
    List Int → (Int × Option String) × List (String × Bool)
  | [] =>
    match (L.Listen w (host ++ ":0")).2 with
    | .error err => ((0, some err), [(host ++ ":0", false)])
    | .ok port => ((port, none), [(host ++ ":0", true)])
  | port :: ports =>
    match (L.Listen w (host ++ ":" ++ toString port)).2 with
    | .ok _ => ((port, none), [(host ++ ":" ++ toString port, true)])
    | .error _ =>
      ((getFreePort L host (L.Listen w (host ++ ":" ++ toString port)).1 ports).1,
        (host ++ ":" ++ toString port, false) ::
          (getFreePort L host (L.Listen w (host ++ ":" ++ toString port)).1 ports).2)

/-- The address `fmt.Sprintf("%s:%d", host, port)`. -/
def portAddr (host : String) (port : Int) : String := host ++ ":" ++ toString port

/-- The world after listening, in order, on the given ports of a host. -/
def afterListens {σ : Type} (L : Listener σ) (host : String) (w : σ) : List Int → σ
  | [] => w
  | port :: ports => afterListens L host (L.Listen w (portAddr host port)).1 ports

/-- Listening fails on each of the given ports of a host, tried in order. -/
def allListensFail {σ : Type} (L : Listener σ) (host : String) (w : σ) : List Int → Prop
  | [] => True
  | port :: ports =>
    (∃ err, (L.Listen w (portAddr host port)).2 = .error err) ∧
      allListensFail L host (L.Listen w (portAddr host port)).1 ports

/-! ## `setupExternalPort` -/

/-- The function `binary.BigEndian.Uint64`: the first eight bytes as a number,
most significant byte first. -/
def bigEndianUint64 (b : List Nat) : Nat :=
  (b.take 8).foldl (fun acc x => acc * 256 + x % 256) 0

/-- The function `certSeed`: the first eight bytes of the SHA-256 of the
certificate, read big-endian and converted to `int64`.  The hash function of
the library is a parameter. -/
def certSeed (sha256 : List Nat → List Nat) (bs : List Nat) : Int :=
  wrapInt64 (bigEndianUint64 (sha256 bs))

/-- The generator of `math/rand`: `rand.NewSource(seed)` and the method
`Int63`, which yields a number and the next state of the source. -/
structure RandSource (ρ : Type) where
  NewSource : Int → ρ
  Int63 : ρ → ρ × Int

/-- The gateway `*upnp.IGD` over a world it may change: `AddPortMapping` for
TCP with the external port, the internal port and the lease; `true` stands
for a nil error. -/
structure IGD (σ : Type) where
  AddPortMapping : σ → Int → Int → Int → σ × Bool

/-- The external port of one pass of the loop: `1024 + int(rnd.Int63()%(65535-1024))`. -/
def externalCandidate (v : Int) : Int := 1024 + v.tmod (65535 - 1024)

/-- The loop `for i := 0; i < 10; i++` of `setupExternalPort` with the passes
left to do: the port returned, and the external ports tried in order, each
with the success of the mapping. -/
def setupExternalPortLoop {ρ σ : Type} (R : RandSource ρ) (G : IGD σ) (port lease : Int) :
    Nat → ρ → σ → Int × List (Int × Bool)
  | 0, _, _ => (0, [])
  | n + 1, rnd, w =>
    if (G.AddPortMapping w (externalCandidate (R.Int63 rnd).2) port lease).2 then
      (externalCandidate (R.Int63 rnd).2, [(externalCandidate (R.Int63 rnd).2, true)])
    else
      ((setupExternalPortLoop R G port lease n (R.Int63 rnd).1
          (G.AddPortMapping w (externalCandidate (R.Int63 rnd).2) port lease).1).1,
        (externalCandidate (R.Int63 rnd).2, false) ::
          (setupExternalPortLoop R G port lease n (R.Int63 rnd).1
            (G.AddPortMapping w (externalCandidate (R.Int63 rnd).2) port lease).1).2)

/-- The function `setupExternalPort(igd, port)` for the certificate bytes
`cert.Certificate[0]` and the option `UPnPLease`. -/
def setupExternalPort {ρ σ : Type} (R : RandSource ρ) (G : IGD σ)
    (sha256 : List Nat → List Nat) (cert : List Nat) (UPnPLease : Int) (port : Int) (w : σ) :
    Int × List (Int × Bool) :=
  setupExternalPortLoop R G port (wrapInt64 (UPnPLease * 60)) 10
    (R.NewSource (certSeed sha256 cert)) w

/-- The first external ports a source yields, whatever the gateway answers. -/
def candidatePorts {ρ : Type} (R : RandSource ρ) : Nat → ρ → List Int
  | 0, _ => []
  | n + 1, rnd => externalCandidate (R.Int63 rnd).2 :: candidatePorts R n (R.Int63 rnd).1

/-! ## `syncthingMain`: the repositories dropped from the database -/

/-- Modelled from the spec: the method `cfg.RepoMap()` of the configuration,
which is not among the sources: the configured repositories by ID. -/
def RepoMap (cfgRepositories : List RepositoryConfiguration) :
    List (String × RepositoryConfiguration) :=
  cfgRepositories.map (fun r => (r.ID, r))

/-- The loop over `files.ListRepos(db)` that removes the database entries of
repositories no longer in the configuration: the IDs `files.DropRepo` is
called for, in order.  `listed` is what `files.ListRepos(db)` returns. -/
def dropRepos (repoMap : List (String × RepositoryConfiguration)) : List String → List String
  | [] => []
  | repo :: rest =>
    if (repoMap.lookup repo).isSome then dropRepos repoMap rest
    else repo :: dropRepos repoMap rest

/-! ## `dialTLS`: the candidates of a node -/

/-- The lookup `discoverer.Lookup(nodeID)` of the loop over the addresses,
which is not made when `discoverer` is nil. -/
def discovered {σ : Type} (N : Net σ) (w : σ) (nodeID : NodeID) : σ × List String :=
  match N.discoverer with
  | some Lookup => Lookup w nodeID
  | none => (w, [])

/-- The body of the loop `for _, nodeCfg := range cfg.Nodes` for one node. -/
def dialTLSNode {σ : Type} (N : Net σ) (myID : NodeID) (w : σ) (nodeCfg : NodeConfiguration) :
    σ × List DialEffect :=
  if nodeCfg.NodeID = myID then (w, [])
  else if (N.ConnectedTo w nodeCfg.NodeID).2 then ((N.ConnectedTo w nodeCfg.NodeID).1, [])
  else
    dialTLSDial N nodeCfg.NodeID
      (dialTLSAddrs N nodeCfg.NodeID (N.ConnectedTo w nodeCfg.NodeID).1 nodeCfg.Addresses).1
      (dialTLSAddrs N nodeCfg.NodeID (N.ConnectedTo w nodeCfg.NodeID).1 nodeCfg.Addresses).2

/-- The world in which the round after the first `rounds` rounds of the outer
`for` of `dialTLS` starts. -/
def dialTLSWorld {σ : Type} (N : Net σ) (cfgNodes : List NodeConfiguration) (myID : NodeID)
    (ReconnectIntervalS : Int) : Nat → σ → Int → σ
  | 0, w, _ => w
  | rounds + 1, w, delay =>
    dialTLSWorld N cfgNodes myID ReconnectIntervalS rounds
      (N.Sleep (dialTLSNodes N myID w cfgNodes).1 delay) (nextDelay ReconnectIntervalS delay)

/-- The world after the dial attempts on the given candidates, none of which
yields a link. -/
def afterDials {σ : Type} (N : Net σ) (w : σ) : List String → σ
  | [] => w
  | addr :: rest => afterDials N (N.Dial w (String.mk (dialAddr addr.data))).1 rest

/-- No dial attempt on the given candidates, tried in order, yields a link. -/
def allDialsFail {σ : Type} (N : Net σ) (w : σ) : List String → Prop
  | [] => True
  | addr :: rest =>
    (N.Dial w (String.mk (dialAddr addr.data))).2 = none ∧
      allDialsFail N (N.Dial w (String.mk (dialAddr addr.data))).1 rest

/-! ## GUI: the token store over several calls -/

/-- The list `csrfTokens` after calls of `newCsrfToken`, one for each of
`randoms`, in order, each random string being what `randomString(30)` returns
in that call. -/
def newCsrfTokenCalls (csrfTokens : List String) : List String → List String
  | [] => csrfTokens
  | random :: rest => newCsrfTokenCalls (newCsrfToken csrfTokens random).1 rest

/-! ## Concrete inputs -/

/-- A certificate library for the examples: the identity is the sum of the
raw bytes, and a certificate verifies against the name `syncthing` only. -/
def exCrypto : Crypto := ⟨fun raw => raw.sum, fun _ name => name == "syncthing"⟩

/-- A link with Go identity `ptr` whose one certificate has identity `id`. -/
def exConn (ptr id : Nat) : Conn := ⟨ptr, [⟨[id]⟩], "10.0.0.1:22000", "10.0.0.9:40000"⟩

/-- A configured node with one static address and the given certificate name. -/
def exNode (id : Nat) (name : String) : NodeConfiguration :=
  ⟨id, "peer", ["10.0.0.9:22000"], false, name⟩

/-- A network for the examples, over a world that counts the dial attempts:
nobody is connected, there is no discoverer, the first attempt fails and every
later one yields a link. -/
def exNet : Net Nat where
  ConnectedTo := fun w _ => (w, false)
  discoverer := none
  Dial := fun w addr => (w + 1, if w = 0 then none else some ⟨w, [⟨[2]⟩], "10.0.0.1:50000", addr⟩)
  Send := fun w _ => w
  Sleep := fun w _ => w

/-- A system for the examples, over a world that counts the repositories
added: `/data/sync` is a directory, `/data/file` is a regular file, nothing
else exists, directories can be created, and only the repository `indexed`
has files in the index. -/
def exSys : Sys Nat where
  expandTilde := fun p => p
  Stat := fun _ p =>
    if p = "/data/sync" then .ok ⟨true⟩
    else if p = "/data/file" then .ok ⟨false⟩
    else .error ⟨"stat", p, "no such file or directory", true⟩
  MkdirAll := fun w _ => (w, none)
  LocalVersion := fun _ id => if id = "indexed" then 5 else 0
  AddRepo := fun w _ => w + 1

/-- No rule file besides the one parsed, and `//` for comments. -/
def exRuleFiles : RuleFiles := ⟨"//".data, []⟩

/-- The rule text of `TestExcludes`. -/
def exStignore : String := "\n\t!iex2\n\t!ign1/ex\n\tign1\n\ti*2\n\t!ign2\n\t"

/-- The rules of `TestExcludes`, parsed. -/
def exPatterns : List IgnoreRule :=
  ((Parse exRuleFiles exStignore ".stignore").toOption).getD []

/-- A tree like the one of `TestWalkSub`: two files in `dir2`, one of them
ignored by a rule written at the root. -/
def exTree : Tree :=
  Tree.file "afile" [102, 111, 111, 10]
    (Tree.dir "dir2" (Tree.file "cfile" [98, 97, 122, 10] (Tree.file "dfile" [113, 117, 117, 120, 10] Tree.nil))
      Tree.nil)

/-- The matcher of the rule file with the one line `dir2/dfile`. -/
def exIgnores : Path → Bool :=
  matchPath (((Parse exRuleFiles "dir2/dfile" ".stignore").toOption).getD [])

/-- A request with the given path, method, `X-API-Key` and `X-CSRF-Token`
headers and `CSRF-Token` cookie. -/
def exRequest (path method apiKeyHeader csrfHeader : String) (cookie : Option String) :
    Request where
  Path := path
  Method := method
  Header := fun name =>
    if name = "X-API-Key" then apiKeyHeader
    else if name = "X-CSRF-Token" then csrfHeader else ""
  Cookie := fun name => if name = "CSRF-Token" then cookie else none

/-- The lines `1` to `n` of an output. -/
def exLines (n : Nat) : List String := (List.range n).map (fun i => toString (i + 1))

/-- A host on which only the port 8082 is free, and the system picks 49152. -/
def exListener : Listener Nat where
  Listen := fun w addr =>
    (w + 1, if addr = "127.0.0.1:8082" then .ok 8082
      else if addr = "127.0.0.1:0" then .ok 49152 else .error "address already in use")

/-- A source for the examples: the state is a counter started at the seed,
and each number is the state times 7919. -/
def exRand : RandSource Int where
  NewSource := fun seed => seed
  Int63 := fun s => (s + 1, (s * 7919) % 9223372036854775808)

/-- A gateway for the examples, over a world that counts the calls: a mapping
succeeds from the third call on. -/
def exIGD : IGD Nat where
  AddPortMapping := fun w _ _ _ => (w + 1, decide (2 ≤ w))

/-- A hash for the examples: the bytes themselves, padded with zeros. -/
def exHash (bs : List Nat) : List Nat := bs ++ List.replicate 32 0

/-- A network for the examples with a discoverer, over a world that counts
the dial attempts: the node 3 is connected, the lookup answers two addresses
before the third attempt and one after it, and only `10.0.0.8:22000` can be
dialled. -/
def exNetDiscovery : Net Nat where
  ConnectedTo := fun w id => (w, decide (id = 3))
  discoverer :=
    some (fun w _ =>
      (w, if w < 3 then ["10.0.0.7:22000", "10.0.0.8:22000"] else ["10.0.0.8:22000"]))
  Dial := fun w addr =>
    (w + 1, if addr = "10.0.0.8:22000" then some ⟨w, [⟨[2]⟩], "10.0.0.1:50000", addr⟩ else none)
  Send := fun w _ => w
  Sleep := fun w _ => w

/-- The nodes of the examples with a discoverer: the local node 1, the node 2
with a `dynamic` entry between two static addresses, and the node 3. -/
def exNodesDiscovery : List NodeConfiguration :=
  [⟨1, "local", ["10.0.0.1:22000"], false, ""⟩,
   ⟨2, "peer", ["10.0.0.5:22000", "dynamic", "10.0.0.6:22000"], false, ""⟩,
   ⟨3, "other", ["10.0.0.4:22000"], false, ""⟩]

/-- A child of the monitor that panics: what it writes to stderr, with the
panic log created. -/
def exPanic : List (String × Bool) :=
  [("panic: runtime error: index out of range\n", true), ("\n", true),
   ("goroutine 1 [running]:\n", true)]

/-! # Theorems -/

set_option maxRecDepth 20000

/-! ## `listenConnect` -/

/-- The three ways the inner loop of `listenConnect` can end. -/
theorem listenConnectNodes_cases (cr : Crypto) (m : Model) (conn : Conn) (remoteCert : Certificate)
    (remoteID : NodeID) (cfgNodes : List NodeConfiguration) :
    ((∀ n ∈ cfgNodes, n.NodeID ≠ remoteID) ∧
      listenConnectNodes cr m conn remoteCert remoteID cfgNodes =
        (m, [LinkEffect.NodeRejected remoteID conn.RemoteAddr, LinkEffect.Close conn])) ∨
    ((∃ n ∈ cfgNodes, n.NodeID = remoteID) ∧
      listenConnectNodes cr m conn remoteCert remoteID cfgNodes = (m, [LinkEffect.Close conn])) ∨
    (∃ n ∈ cfgNodes, n.NodeID = remoteID ∧
      listenConnectNodes cr m conn remoteCert remoteID cfgNodes =
        (m.AddConnection remoteID conn,
          [LinkEffect.NodeConnected remoteID conn.RemoteAddr,
           LinkEffect.AddConnection conn remoteID n.Compression])) := by
  induction cfgNodes with
  | nil => left; simp [listenConnectNodes]
  | cons n rest ih =>
    by_cases hn : n.NodeID = remoteID
    · by_cases hv : cr.VerifyHostname remoteCert (certName n) = true
      · right; right
        exact ⟨n, by simp, hn, by simp [listenConnectNodes, hn, hv]⟩
      · right; left
        exact ⟨⟨n, by simp, hn⟩, by simp [listenConnectNodes, hn, hv]⟩
    · have hstep : listenConnectNodes cr m conn remoteCert remoteID (n :: rest) =
          listenConnectNodes cr m conn remoteCert remoteID rest := by
        simp [listenConnectNodes, hn]
      rw [hstep]
      rcases ih with ⟨h1, h2⟩ | ⟨⟨x, hx, hx2⟩, h2⟩ | ⟨x, hx, hx2, h3⟩
      · left
        refine ⟨?_, h2⟩
        intro y hy
        rcases List.mem_cons.mp hy with rfl | hy
        · exact hn
        · exact h1 y hy
      · right; left
        exact ⟨⟨x, List.mem_cons_of_mem _ hx, hx2⟩, h2⟩
      · right; right
        exact ⟨x, List.mem_cons_of_mem _ hx, hx2, h3⟩

theorem listenConnectNext_self (cr : Crypto) (cfgNodes : List NodeConfiguration) (myID : NodeID)
    (m : Model) (conn : Conn) (remoteCert : Certificate)
    (hc : conn.PeerCertificates = [remoteCert]) (hid : cr.NewNodeID remoteCert.Raw = myID) :
    listenConnectNext cr cfgNodes myID m conn = (m, [LinkEffect.Close conn]) := by
  simp [listenConnectNext, hc, hid]

theorem listenConnectNext_connected (cr : Crypto) (cfgNodes : List NodeConfiguration)
    (myID : NodeID) (m : Model) (conn : Conn) (remoteCert : Certificate)
    (hc : conn.PeerCertificates = [remoteCert])
    (hm : m.ConnectedTo (cr.NewNodeID remoteCert.Raw) = true) :
    listenConnectNext cr cfgNodes myID m conn = (m, [LinkEffect.Close conn]) := by
  simp [listenConnectNext, hc, hm]

theorem listenConnectNext_nodes (cr : Crypto) (cfgNodes : List NodeConfiguration)
    (myID : NodeID) (m : Model) (conn : Conn) (remoteCert : Certificate)
    (hc : conn.PeerCertificates = [remoteCert]) (hid : cr.NewNodeID remoteCert.Raw ≠ myID)
    (hm : m.ConnectedTo (cr.NewNodeID remoteCert.Raw) = false) :
    listenConnectNext cr cfgNodes myID m conn =
      listenConnectNodes cr m conn remoteCert (cr.NewNodeID remoteCert.Raw) cfgNodes := by
  simp [listenConnectNext, hc, hid, hm]

theorem listenConnectNext_no_cert (cr : Crypto) (cfgNodes : List NodeConfiguration)
    (myID : NodeID) (m : Model) (conn : Conn)
    (hc : ∀ remoteCert, conn.PeerCertificates ≠ [remoteCert]) :
    listenConnectNext cr cfgNodes myID m conn = (m, [LinkEffect.Close conn]) := by
  unfold listenConnectNext
  split
  · rename_i remoteCert h
    exact absurd h (hc remoteCert)
  · rfl

/-- One link either is closed or rejected, leaving the registry alone, or is
registered: then it carries one certificate whose identity is configured, is
not the local one and was not connected. -/
theorem listenConnectNext_cases (cr : Crypto) (cfgNodes : List NodeConfiguration) (myID : NodeID)
    (m : Model) (conn : Conn) :
    listenConnectNext cr cfgNodes myID m conn = (m, [LinkEffect.Close conn]) ∨
    (∃ remoteCert, conn.PeerCertificates = [remoteCert] ∧
      listenConnectNext cr cfgNodes myID m conn =
        (m, [LinkEffect.NodeRejected (cr.NewNodeID remoteCert.Raw) conn.RemoteAddr,
             LinkEffect.Close conn])) ∨
    (∃ remoteCert, conn.PeerCertificates = [remoteCert] ∧
      cr.NewNodeID remoteCert.Raw ≠ myID ∧
      m.ConnectedTo (cr.NewNodeID remoteCert.Raw) = false ∧
      ∃ n ∈ cfgNodes, n.NodeID = cr.NewNodeID remoteCert.Raw ∧
        listenConnectNext cr cfgNodes myID m conn =
          (m.AddConnection (cr.NewNodeID remoteCert.Raw) conn,
            [LinkEffect.NodeConnected (cr.NewNodeID remoteCert.Raw) conn.RemoteAddr,
             LinkEffect.AddConnection conn (cr.NewNodeID remoteCert.Raw) n.Compression])) := by
  by_cases hc : ∃ remoteCert, conn.PeerCertificates = [remoteCert]
  · obtain ⟨remoteCert, hc⟩ := hc
    by_cases h1 : cr.NewNodeID remoteCert.Raw = myID
    · left; exact listenConnectNext_self cr cfgNodes myID m conn remoteCert hc h1
    · by_cases h2 : m.ConnectedTo (cr.NewNodeID remoteCert.Raw) = true
      · left; exact listenConnectNext_connected cr cfgNodes myID m conn remoteCert hc h2
      · have h2 : m.ConnectedTo (cr.NewNodeID remoteCert.Raw) = false := by simpa using h2
        rw [listenConnectNext_nodes cr cfgNodes myID m conn remoteCert hc h1 h2]
        rcases listenConnectNodes_cases cr m conn remoteCert (cr.NewNodeID remoteCert.Raw) cfgNodes
          with ⟨_, h⟩ | ⟨_, h⟩ | ⟨n, hn, hid, h⟩
        · right; left; exact ⟨remoteCert, hc, h⟩
        · left; exact h
        · right; right; exact ⟨remoteCert, hc, h1, h2, n, hn, hid, h⟩
  · left
    exact listenConnectNext_no_cert cr cfgNodes myID m conn (fun c h => hc ⟨c, h⟩)

/-- One link either leaves the registry alone or registers a link to a
configured node that is neither the local node nor connected. -/
theorem listenConnectNext_model (cr : Crypto) (cfgNodes : List NodeConfiguration) (myID : NodeID)
    (m : Model) (conn : Conn) :
    (listenConnectNext cr cfgNodes myID m conn).1 = m ∨
    ∃ remoteID, remoteID ≠ myID ∧ m.ConnectedTo remoteID = false ∧
      (∃ n ∈ cfgNodes, n.NodeID = remoteID) ∧
      (listenConnectNext cr cfgNodes myID m conn).1 = m.AddConnection remoteID conn := by
  rcases listenConnectNext_cases cr cfgNodes myID m conn with h | ⟨_, _, h⟩ |
    ⟨c, _, h1, h2, n, hn, hid, h⟩
  · left; rw [h]
  · left; rw [h]
  · right; exact ⟨_, h1, h2, ⟨n, hn, hid⟩, by rw [h]⟩

theorem connectedTo_iff (m : Model) (id : NodeID) :
    m.ConnectedTo id = true ↔ id ∈ m.protoConn.map Prod.fst := by
  simp [Model.ConnectedTo]

theorem listenConnect_nodup (cr : Crypto) (cfgNodes : List NodeConfiguration) (myID : NodeID)
    (conns : List Conn) : ∀ m : Model, (m.protoConn.map Prod.fst).Nodup →
    ((listenConnect cr cfgNodes myID m conns).1.protoConn.map Prod.fst).Nodup ∧
    m.protoConn <+: (listenConnect cr cfgNodes myID m conns).1.protoConn := by
  induction conns with
  | nil => intro m h; exact ⟨h, List.prefix_refl _⟩
  | cons conn rest ih =>
    intro m h
    simp only [listenConnect]
    rcases listenConnectNext_model cr cfgNodes myID m conn with h1 | ⟨id, _, hc, _, h1⟩
    · rw [h1]; exact ih m h
    · rw [h1]
      have hnd : ((m.AddConnection id conn).protoConn.map Prod.fst).Nodup := by
        have hni : id ∉ m.protoConn.map Prod.fst := by
          intro hmem
          rw [← connectedTo_iff, hc] at hmem
          exact Bool.noConfusion hmem
        simp only [Model.AddConnection, List.map_append, List.map_cons, List.map_nil]
        rw [List.nodup_append]
        refine ⟨h, List.nodup_singleton _, ?_⟩
        intro a ha hb
        rw [List.mem_singleton] at hb
        exact hni (hb ▸ ha)
      obtain ⟨ih1, ih2⟩ := ih _ hnd
      refine ⟨ih1, List.IsPrefix.trans ?_ ih2⟩
      exact List.prefix_append _ _

/-- C1: a link whose certificate identity is already connected is closed and
not registered, in every state of the registry; and from a registry with at
most one live connection per node ID, every sequence of processed links
leaves at most one live connection per node ID, keeps every connection that
was live, and so never puts another link in the place of a live one. -/
theorem listenConnect_at_most_one_connection (cr : Crypto) (cfgNodes : List NodeConfiguration)
    (myID : NodeID) (m : Model) (conns : List Conn)
    (h : (m.protoConn.map Prod.fst).Nodup) :
    (∀ (m1 : Model) (conn : Conn) (remoteCert : Certificate),
        conn.PeerCertificates = [remoteCert] →
        m1.ConnectedTo (cr.NewNodeID remoteCert.Raw) = true →
        listenConnectNext cr cfgNodes myID m1 conn = (m1, [LinkEffect.Close conn])) ∧
    ((listenConnect cr cfgNodes myID m conns).1.protoConn.map Prod.fst).Nodup ∧
    m.protoConn <+: (listenConnect cr cfgNodes myID m conns).1.protoConn ∧
    (∀ id c c1, (id, c) ∈ m.protoConn →
        (id, c1) ∈ (listenConnect cr cfgNodes myID m conns).1.protoConn → c1 = c) := by
  obtain ⟨h1, h2⟩ := listenConnect_nodup cr cfgNodes myID conns m h
  refine ⟨fun m1 conn remoteCert hc hm =>
    listenConnectNext_connected cr cfgNodes myID m1 conn remoteCert hc hm, h1, h2, ?_⟩
  intro id c c1 hin hin1
  have hin2 : (id, c) ∈ (listenConnect cr cfgNodes myID m conns).1.protoConn := h2.subset hin
  have hinj := List.inj_on_of_nodup_map h1 hin1 hin2 rfl
  exact (Prod.mk.inj hinj).2

theorem listenConnect_at_most_one_connection_witness :
    ((NewModel.AddConnection 2 (exConn 0 2)).protoConn.map Prod.fst).Nodup ∧
    ((listenConnect exCrypto [exNode 2 ""] 1 (NewModel.AddConnection 2 (exConn 0 2))
      [exConn 1 2, exConn 2 2]).1.protoConn.map Prod.fst).Nodup ∧
    (NewModel.AddConnection 2 (exConn 0 2)).protoConn <+:
      (listenConnect exCrypto [exNode 2 ""] 1 (NewModel.AddConnection 2 (exConn 0 2))
        [exConn 1 2, exConn 2 2]).1.protoConn :=
  ⟨by decide,
   (listenConnect_at_most_one_connection exCrypto [exNode 2 ""] 1
     (NewModel.AddConnection 2 (exConn 0 2)) [exConn 1 2, exConn 2 2] (by decide)).2.1,
   (listenConnect_at_most_one_connection exCrypto [exNode 2 ""] 1
     (NewModel.AddConnection 2 (exConn 0 2)) [exConn 1 2, exConn 2 2] (by decide)).2.2.1⟩

/-- Every connection registered by `listenConnect`, started from a registry
of configured nodes, is to a configured node. -/
theorem listenConnect_configured (cr : Crypto) (cfgNodes : List NodeConfiguration)
    (myID : NodeID) (conns : List Conn) : ∀ m : Model,
    (∀ p ∈ m.protoConn, ∃ n ∈ cfgNodes, n.NodeID = p.1) →
    ∀ p ∈ (listenConnect cr cfgNodes myID m conns).1.protoConn, ∃ n ∈ cfgNodes, n.NodeID = p.1 := by
  induction conns with
  | nil => intro m h; exact h
  | cons conn rest ih =>
    intro m h
    simp only [listenConnect]
    rcases listenConnectNext_model cr cfgNodes myID m conn with h1 | ⟨id, _, _, hn, h1⟩
    · rw [h1]; exact ih m h
    · rw [h1]
      apply ih
      intro p hp
      simp only [Model.AddConnection, List.mem_append, List.mem_singleton] at hp
      rcases hp with hp | rfl
      · exact h p hp
      · exact hn

/-- C2, as amended: a link is passed to `AddConnection` only if it carries one
certificate whose identity is the NodeID of an entry of `cfg.Nodes` and is not
the local node ID; after any links processed from the empty registry, a link
whose identity is in no entry of `cfg.Nodes` and is not the local node ID is
closed with a NodeRejected event and nothing else; a link to self is closed
and nothing else happens, whatever `cfg.Nodes` lists. -/
theorem listenConnect_only_known_nodes (cr : Crypto) (cfgNodes : List NodeConfiguration)
    (myID : NodeID) :
    (∀ (m : Model) (conn c : Conn) (id : NodeID) (compression : Bool),
        LinkEffect.AddConnection c id compression ∈ (listenConnectNext cr cfgNodes myID m conn).2 →
        c = conn ∧ (∃ remoteCert, conn.PeerCertificates = [remoteCert] ∧
          id = cr.NewNodeID remoteCert.Raw) ∧
        (∃ n ∈ cfgNodes, n.NodeID = id) ∧ id ≠ myID) ∧
    (∀ (prev : List Conn) (conn : Conn) (remoteCert : Certificate),
        conn.PeerCertificates = [remoteCert] →
        (∀ n ∈ cfgNodes, n.NodeID ≠ cr.NewNodeID remoteCert.Raw) →
        cr.NewNodeID remoteCert.Raw ≠ myID →
        listenConnectNext cr cfgNodes myID (listenConnect cr cfgNodes myID NewModel prev).1 conn =
          ((listenConnect cr cfgNodes myID NewModel prev).1,
            [LinkEffect.NodeRejected (cr.NewNodeID remoteCert.Raw) conn.RemoteAddr,
             LinkEffect.Close conn])) ∧
    (∀ (m : Model) (conn : Conn) (remoteCert : Certificate),
        conn.PeerCertificates = [remoteCert] →
        cr.NewNodeID remoteCert.Raw = myID →
        listenConnectNext cr cfgNodes myID m conn = (m, [LinkEffect.Close conn])) := by
  refine ⟨?_, ?_, ?_⟩
  · intro m conn c id compression hmem
    rcases listenConnectNext_cases cr cfgNodes myID m conn with h | ⟨_, _, h⟩ |
      ⟨remoteCert, hc, h1, _, n, hn, hid, h⟩
    · rw [h] at hmem; simp at hmem
    · rw [h] at hmem; simp at hmem
    · rw [h] at hmem
      simp only [List.mem_cons, List.mem_singleton, LinkEffect.AddConnection.injEq,
        reduceCtorEq, false_or, List.mem_nil_iff, or_false] at hmem
      obtain ⟨rfl, rfl, _⟩ := hmem
      exact ⟨rfl, ⟨remoteCert, hc, rfl⟩, ⟨n, hn, hid⟩, h1⟩
  · intro prev conn remoteCert hc hunknown hself
    have hnot : (listenConnect cr cfgNodes myID NewModel prev).1.ConnectedTo
        (cr.NewNodeID remoteCert.Raw) = false := by
      rw [← Bool.not_eq_true, connectedTo_iff]
      intro hmem
      obtain ⟨p, hp, hp1⟩ := List.mem_map.mp hmem
      obtain ⟨n, hn, hn1⟩ := listenConnect_configured cr cfgNodes myID prev NewModel
        (by intro p hp; simp [NewModel] at hp) p hp
      exact hunknown n hn (hn1.trans hp1)
    rw [listenConnectNext_nodes cr cfgNodes myID _ conn remoteCert hc hself hnot]
    rcases listenConnectNodes_cases cr (listenConnect cr cfgNodes myID NewModel prev).1 conn
      remoteCert (cr.NewNodeID remoteCert.Raw) cfgNodes with ⟨_, h⟩ | ⟨⟨n, hn, hid⟩, _⟩ |
      ⟨n, hn, hid, _⟩
    · exact h
    · exact absurd hid (hunknown n hn)
    · exact absurd hid (hunknown n hn)
  · intro m conn remoteCert hc hid
    exact listenConnectNext_self cr cfgNodes myID m conn remoteCert hc hid

/-- C2, as stated, fails: with the local ID 7 in no entry of `cfg.Nodes`, a
link whose certificate identity is 7 is closed without a NodeRejected event. -/
theorem listenConnect_self_not_rejected :
    (exConn 0 7).PeerCertificates = [⟨[7]⟩] ∧
    (∀ n ∈ ([exNode 2 ""] : List NodeConfiguration), n.NodeID ≠ exCrypto.NewNodeID [7]) ∧
    LinkEffect.NodeRejected (exCrypto.NewNodeID [7]) (exConn 0 7).RemoteAddr ∉
      (listenConnectNext exCrypto [exNode 2 ""] 7 NewModel (exConn 0 7)).2 := by
  decide

/-- The inner loop stops at the first entry with the identity of the link
when the certificate does not verify against the name of that entry. -/
theorem listenConnectNodes_bad_name (cr : Crypto) (m : Model) (conn : Conn)
    (remoteCert : Certificate) (nodeCfg : NodeConfiguration) (post : List NodeConfiguration)
    (hv : cr.VerifyHostname remoteCert (certName nodeCfg) = false) :
    ∀ pre : List NodeConfiguration, (∀ n ∈ pre, n.NodeID ≠ nodeCfg.NodeID) →
    listenConnectNodes cr m conn remoteCert nodeCfg.NodeID (pre ++ nodeCfg :: post) =
      (m, [LinkEffect.Close conn]) := by
  intro pre
  induction pre with
  | nil => intro _; simp [listenConnectNodes, hv]
  | cons n rest ih =>
    intro hpre
    have hn : n.NodeID ≠ nodeCfg.NodeID := hpre n (by simp)
    simp only [List.cons_append, listenConnectNodes, hn, if_false]
    exact ih (fun x hx => hpre x (List.mem_cons_of_mem _ hx))

/-- C3: for a link whose certificate identity is that of a configured node,
if the certificate does not verify against the expected name of the first
entry of `cfg.Nodes` with that identity (its CertName, or `syncthing` when the
CertName is empty), the link is closed, nothing is registered, and the result
does not depend on the entries after that one. -/
theorem listenConnect_bad_cert_name_closed (cr : Crypto) (myID : NodeID) (m : Model)
    (conn : Conn) (remoteCert : Certificate) (pre post : List NodeConfiguration)
    (nodeCfg : NodeConfiguration)
    (hc : conn.PeerCertificates = [remoteCert])
    (hid : nodeCfg.NodeID = cr.NewNodeID remoteCert.Raw)
    (hpre : ∀ n ∈ pre, n.NodeID ≠ cr.NewNodeID remoteCert.Raw)
    (hv : cr.VerifyHostname remoteCert
      (if nodeCfg.CertName = "" then "syncthing" else nodeCfg.CertName) = false) :
    listenConnectNext cr (pre ++ nodeCfg :: post) myID m conn = (m, [LinkEffect.Close conn]) ∧
    (∀ c id compression, LinkEffect.AddConnection c id compression ∉
      (listenConnectNext cr (pre ++ nodeCfg :: post) myID m conn).2) ∧
    (∀ post1 : List NodeConfiguration,
      listenConnectNext cr (pre ++ nodeCfg :: post1) myID m conn =
        listenConnectNext cr (pre ++ nodeCfg :: post) myID m conn) := by
  have key : ∀ post1 : List NodeConfiguration,
      listenConnectNext cr (pre ++ nodeCfg :: post1) myID m conn = (m, [LinkEffect.Close conn]) := by
    intro post1
    by_cases h1 : cr.NewNodeID remoteCert.Raw = myID
    · exact listenConnectNext_self cr _ myID m conn remoteCert hc h1
    · by_cases h2 : m.ConnectedTo (cr.NewNodeID remoteCert.Raw) = true
      · exact listenConnectNext_connected cr _ myID m conn remoteCert hc h2
      · have h2 : m.ConnectedTo (cr.NewNodeID remoteCert.Raw) = false := by simpa using h2
        rw [listenConnectNext_nodes cr _ myID m conn remoteCert hc h1 h2, ← hid]
        exact listenConnectNodes_bad_name cr m conn remoteCert nodeCfg post1 hv pre
          (by rw [hid]; exact hpre)
  refine ⟨key post, ?_, fun post1 => (key post1).trans (key post).symm⟩
  intro c id compression hmem
  rw [key post] at hmem
  simp at hmem

theorem listenConnect_bad_cert_name_closed_witness :
    (exConn 0 2).PeerCertificates = [⟨[2]⟩] ∧
    exCrypto.VerifyHostname ⟨[2]⟩ "example.com" = false ∧
    listenConnectNext exCrypto ([exNode 3 ""] ++ exNode 2 "example.com" :: [exNode 2 ""]) 1
      NewModel (exConn 0 2) = (NewModel, [LinkEffect.Close (exConn 0 2)]) :=
  ⟨rfl, by decide,
    (listenConnect_bad_cert_name_closed exCrypto 1 NewModel (exConn 0 2) ⟨[2]⟩ [exNode 3 ""]
      [exNode 2 ""] (exNode 2 "example.com") rfl (by decide) (by decide) (by decide)).1⟩

/-! ## `dialTLS`: the backoff -/

/-- A result inside the range of `int64` is not changed by the wrap-around. -/
theorem wrapInt64_of_range (x : Int) (h0 : -9223372036854775808 ≤ x)
    (h1 : x < 9223372036854775808) : wrapInt64 x = x := by
  unfold wrapInt64
  omega

theorem sleeps_append (a b : List DialEffect) : sleeps (a ++ b) = sleeps a ++ sleeps b := by
  induction a with
  | nil => rfl
  | cons e rest ih => cases e <;> simp [sleeps, ih]

theorem sleeps_dialTLSDial {σ : Type} (N : Net σ) (nodeID : NodeID) (addrs : List String) :
    ∀ w : σ, sleeps (dialTLSDial N nodeID w addrs).2 = [] := by
  induction addrs with
  | nil => intro w; rfl
  | cons addr rest ih =>
    intro w
    simp only [dialTLSDial]
    split
    · rfl
    · simp only [sleeps]
      exact ih _

theorem sleeps_dialTLSNodes {σ : Type} (N : Net σ) (myID : NodeID)
    (cfgNodes : List NodeConfiguration) :
    ∀ w : σ, sleeps (dialTLSNodes N myID w cfgNodes).2 = [] := by
  induction cfgNodes with
  | nil => intro w; rfl
  | cons nodeCfg rest ih =>
    intro w
    simp only [dialTLSNodes]
    split
    · exact ih _
    · split
      · exact ih _
      · simp only [sleeps_append, sleeps_dialTLSDial, ih, List.append_nil]

/-- The delays slept in the first rounds are the iterates of the update of
`delay`, whatever the network does. -/
theorem sleeps_dialTLSLoop {σ : Type} (N : Net σ) (cfgNodes : List NodeConfiguration)
    (myID : NodeID) (ReconnectIntervalS : Int) (rounds : Nat) :
    ∀ (w : σ) (delay : Int),
    sleeps (dialTLSLoop N cfgNodes myID ReconnectIntervalS rounds w delay) =
      (List.range rounds).map (fun k => (nextDelay ReconnectIntervalS)^[k] delay) := by
  induction rounds with
  | zero => intro w delay; rfl
  | succ n ih =>
    intro w delay
    simp only [dialTLSLoop, sleeps_append, sleeps_dialTLSNodes, List.nil_append, sleeps, ih]
    rw [List.range_succ_eq_map, List.map_cons, List.map_map]
    rfl

/-- Without overflow the delay before round `k` is the doubled initial second,
capped by the ceiling. -/
theorem nextDelay_iterate (R : Int) (h1 : 1 ≤ R) (h2 : R ≤ 4611686018) (k : Nat) :
    (nextDelay R)^[k] (1 * Second) = min (2 ^ k * Second) (R * Second) := by
  have hmax : maxD R = R * 1000000000 := by
    unfold maxD Second
    rw [wrapInt64_of_range R (by omega) (by omega)]
    exact wrapInt64_of_range _ (by omega) (by omega)
  induction k with
  | zero =>
    simp only [Function.iterate_zero, id_eq, pow_zero, Second]
    rw [min_eq_left (by omega)]
  | succ n ih =>
    rw [Function.iterate_succ_apply', ih]
    have hp : (0 : Int) < 2 ^ n := by positivity
    rw [pow_succ]
    generalize (2 : Int) ^ n = a at hp ⊢
    unfold nextDelay
    rw [hmax]
    unfold Second
    have hw : wrapInt64 (min (a * 1000000000) (R * 1000000000) * 2) =
        min (a * 1000000000) (R * 1000000000) * 2 := by
      apply wrapInt64_of_range <;> omega
    rw [hw]
    split <;> omega

/-- C4, as stated, fails: with the ceiling 0 the first sleep is one second and
the second is zero; and with the ceiling 4611686019 the doubling of the capped
delay overflows, so the 35 first delays are not in non-decreasing order. -/
theorem dialTLS_delays_not_monotonic :
    sleeps (dialTLS exNet [] 1 0 2 0) = [1000000000, 0] ∧
    ¬ (sleeps (dialTLS exNet [] 1 0 2 0)).Pairwise (fun a b => a ≤ b) ∧
    ¬ (sleeps (dialTLS exNet [] 1 4611686019 35 0)).Pairwise (fun a b => a ≤ b) := by
  decide

/-- C4, as amended: for every ceiling `ReconnectIntervalS` from 1 to 4611686018
seconds, the delays that `dialTLS` sleeps between successive dial rounds are
in non-decreasing order, whatever the network does. -/
theorem dialTLS_delays_monotonic {σ : Type} (N : Net σ) (cfgNodes : List NodeConfiguration)
    (myID : NodeID) (ReconnectIntervalS : Int) (rounds : Nat) (w : σ)
    (h1 : 1 ≤ ReconnectIntervalS) (h2 : ReconnectIntervalS ≤ 4611686018) :
    (sleeps (dialTLS N cfgNodes myID ReconnectIntervalS rounds w)).Pairwise
      (fun a b => a ≤ b) := by
  unfold dialTLS
  rw [sleeps_dialTLSLoop, List.pairwise_map]
  refine List.Pairwise.imp ?_ (List.pairwise_lt_range rounds)
  intro i j hij
  rw [nextDelay_iterate _ h1 h2, nextDelay_iterate _ h1 h2]
  refine min_le_min (mul_le_mul_of_nonneg_right ?_ (by decide)) le_rfl
  exact pow_le_pow_right₀ (by norm_num) (le_of_lt hij)

theorem dialTLS_delays_monotonic_witness :
    (1 : Int) ≤ 60 ∧ (60 : Int) ≤ 4611686018 ∧
    (sleeps (dialTLS exNet [exNode 2 ""] 1 60 8 0)).Pairwise (fun a b => a ≤ b) :=
  ⟨by decide, by decide,
    dialTLS_delays_monotonic exNet [exNode 2 ""] 1 60 8 0 (by decide) (by decide)⟩

/-- C5, as stated, fails: in the second round a link is established and handed
to the dispatcher, and the sleep that follows lasts two seconds, not one. -/
theorem dialTLS_no_reset_after_connection :
    dialTLS exNet [exNode 2 ""] 1 60 2 0 =
      [DialEffect.Dial 2 "10.0.0.9:22000", DialEffect.Sleep 1000000000,
       DialEffect.Dial 2 "10.0.0.9:22000",
       DialEffect.Send ⟨1, [⟨[2]⟩], "10.0.0.1:50000", "10.0.0.9:22000"⟩,
       DialEffect.Sleep 2000000000] := by
  decide

/-- C5, as amended: `dialTLS` never resets the delay. The delay slept at the
end of round `k + 1` is the initial second after `k` updates (doubled and
capped each time); it is the same for every network, every configuration of
nodes and every outcome of the dial attempts, so it does not depend on the
links established before. -/
theorem dialTLS_delay_independent_of_connections {σ τ : Type} (N : Net σ) (N1 : Net τ)
    (cfgNodes cfgNodes1 : List NodeConfiguration) (myID myID1 : NodeID)
    (ReconnectIntervalS : Int) (rounds : Nat) (w : σ) (w1 : τ) :
    sleeps (dialTLS N cfgNodes myID ReconnectIntervalS rounds w) =
      (List.range rounds).map (fun k => (nextDelay ReconnectIntervalS)^[k] (1 * Second)) ∧
    sleeps (dialTLS N cfgNodes myID ReconnectIntervalS rounds w) =
      sleeps (dialTLS N1 cfgNodes1 myID1 ReconnectIntervalS rounds w1) := by
  unfold dialTLS
  rw [sleeps_dialTLSLoop, sleeps_dialTLSLoop]
  exact ⟨rfl, rfl⟩

/-- C6, as stated, fails for large ceilings: with 9223372037 seconds the
product with `time.Second` overflows and the second delay is negative; with
4611686019 seconds the doubling of the capped delay overflows and the delay
number 35 is negative. -/
theorem dialTLS_delay_overflow :
    ((1 : Int) ≤ 9223372037 ∧
      (sleeps (dialTLS exNet [] 1 9223372037 2 0)).get? (2 - 1) = some (-9223372036709551616) ∧
      min (2 ^ (2 - 1) * Second) (9223372037 * Second) = 2000000000) ∧
    ((1 : Int) ≤ 4611686019 ∧
      (sleeps (dialTLS exNet [] 1 4611686019 35 0)).get? (35 - 1) = some (-9223372035709551616) ∧
      min (2 ^ (35 - 1) * Second) (4611686019 * Second) = 4611686019000000000) := by
  decide

/-- C6, as amended: for every ceiling `ReconnectIntervalS` from 1 to 4611686018
seconds and every `k ≥ 1`, the `k`-th delay slept by `dialTLS` is
`min (2^(k-1) seconds, ceiling)`; every delay slept is at least one second and
at most the ceiling. -/
theorem dialTLS_delay_doubles_to_ceiling {σ : Type} (N : Net σ)
    (cfgNodes : List NodeConfiguration) (myID : NodeID) (ReconnectIntervalS : Int)
    (rounds : Nat) (w : σ) (k : Nat)
    (h1 : 1 ≤ ReconnectIntervalS) (h2 : ReconnectIntervalS ≤ 4611686018)
    (hk1 : 1 ≤ k) (hk2 : k ≤ rounds) :
    (sleeps (dialTLS N cfgNodes myID ReconnectIntervalS rounds w)).get? (k - 1) =
      some (min (2 ^ (k - 1) * Second) (ReconnectIntervalS * Second)) ∧
    1 * Second ≤ min (2 ^ (k - 1) * Second) (ReconnectIntervalS * Second) ∧
    min (2 ^ (k - 1) * Second) (ReconnectIntervalS * Second) ≤ ReconnectIntervalS * Second := by
  refine ⟨?_, ?_, min_le_right _ _⟩
  · unfold dialTLS
    rw [sleeps_dialTLSLoop, List.get?_eq_getElem?, List.getElem?_map,
      List.getElem?_range (by omega)]
    simp only [Option.map_some']
    rw [nextDelay_iterate _ h1 h2]
  · have hp : (1 : Int) ≤ 2 ^ (k - 1) := one_le_pow₀ (by norm_num)
    refine le_min ?_ ?_
    · exact mul_le_mul_of_nonneg_right hp (by decide)
    · exact mul_le_mul_of_nonneg_right h1 (by decide)

theorem dialTLS_delay_doubles_to_ceiling_witness :
    (1 : Int) ≤ 60 ∧ (60 : Int) ≤ 4611686018 ∧ 1 ≤ 7 ∧ 7 ≤ 8 ∧
    (sleeps (dialTLS exNet [exNode 2 ""] 1 60 8 0)).get? (7 - 1) =
      some (min (2 ^ (7 - 1) * Second) (60 * Second)) :=
  ⟨by decide, by decide, by decide, by decide,
    (dialTLS_delay_doubles_to_ceiling exNet [exNode 2 ""] 1 60 8 0 7 (by decide) (by decide)
      (by decide) (by decide)).1⟩

/-! ## `syncthingMain`: the repositories at start-up -/

/-- The loop `nextRepo` over a list in two parts. -/
theorem nextRepo_append {σ : Type} (S : Sys σ) (pre rest : List RepositoryConfiguration) :
    ∀ w : σ, nextRepo S w (pre ++ rest) =
      ((nextRepo S (nextRepo S w pre).1 rest).1,
        (nextRepo S w pre).2.1 ++ (nextRepo S (nextRepo S w pre).1 rest).2.1,
        (nextRepo S w pre).2.2 ++ (nextRepo S (nextRepo S w pre).1 rest).2.2) := by
  induction pre with
  | nil => intro w; simp [nextRepo]
  | cons e l ih => intro w; simp [nextRepo, ih]

theorem nextRepo_length {σ : Type} (S : Sys σ) (l : List RepositoryConfiguration) :
    ∀ w : σ, (nextRepo S w l).2.1.length = l.length := by
  induction l with
  | nil => intro w; rfl
  | cons e l ih => intro w; simp [nextRepo, ih]

/-- The text of a path error is never empty. -/
theorem PathError.Error_ne_empty (e : PathError) : e.Error ≠ "" := by
  intro h
  have h2 := congrArg String.length h
  simp [PathError.Error, String.length_append] at h2
  exact absurd h2.1.1.1.2 (by decide)

/-- What one pass of the body of `nextRepo` can do: every call is either a
`MkdirAll` or the `AddRepo` of the entry with its directory expanded, and
`AddRepo` is called only when the entry is left valid and unchanged. -/
theorem nextRepoBody_effects {σ : Type} (S : Sys σ) (w : σ) (entry : RepositoryConfiguration) :
    (nextRepoBody S w entry).2.1.ID = entry.ID ∧
    (entry.Invalid ≠ "" → nextRepoBody S w entry = (w, entry, [])) ∧
    ((nextRepoBody S w entry).2.1.Invalid ≠ "" →
      ∀ e ∈ (nextRepoBody S w entry).2.2, e = StartEffect.MkdirAll (S.expandTilde entry.Directory)) ∧
    ((nextRepoBody S w entry).2.1.Invalid = "" →
      (nextRepoBody S w entry).2.1 = entry ∧
      ∀ e ∈ (nextRepoBody S w entry).2.2, e = StartEffect.MkdirAll (S.expandTilde entry.Directory) ∨
        e = StartEffect.AddRepo { entry with Directory := S.expandTilde entry.Directory }) := by
  unfold nextRepoBody
  by_cases hi : entry.Invalid = ""
  · simp only [hi, ne_eq, not_true_eq_false, if_false]
    cases hs : S.Stat w (S.expandTilde entry.Directory) with
    | ok fi =>
      by_cases hl : S.LocalVersion w entry.ID > 0
      · cases hd : fi.IsDir <;> simp [hl, hd, nextRepoAdd, hi]
      · simp [hl, nextRepoAdd, hi]
    | error err =>
      by_cases hl : S.LocalVersion w entry.ID > 0
      · simp [hl]
      · by_cases hn : err.IsNotExist = true
        · cases hm : (S.MkdirAll w (S.expandTilde entry.Directory)).2 with
          | none => simp [hl, hn, hm, nextRepoAdd, hi]
          | some e => simp [hl, hn, hm, nextRepoAdd, hi, PathError.Error_ne_empty]
        · simp [hl, hn, nextRepoAdd, hi, PathError.Error_ne_empty]
  · simp [hi]

/-- C7: in the loop over `cfg.Repositories`, for every entry that is not
already invalid, if the local index version is greater than zero when the
entry is reached and `os.Stat` of its path fails or finds something that is
not a directory, the body makes no call at all (no `AddRepo`, no `MkdirAll`),
leaves the world as it is, and the entry comes out of the loop marked invalid
with the reason `repo directory missing`. -/
theorem nextRepo_missing_directory {σ : Type} (S : Sys σ) (w : σ)
    (pre post : List RepositoryConfiguration) (entry : RepositoryConfiguration)
    (hv : entry.Invalid = "")
    (hl : 0 < S.LocalVersion (nextRepo S w pre).1 entry.ID)
    (hs : ∀ fi, S.Stat (nextRepo S w pre).1 (S.expandTilde entry.Directory) = .ok fi →
      fi.IsDir = false) :
    nextRepoBody S (nextRepo S w pre).1 entry =
      ((nextRepo S w pre).1, { entry with Invalid := "repo directory missing" }, []) ∧
    (nextRepo S w (pre ++ entry :: post)).2.1.get? pre.length =
      some { entry with Invalid := "repo directory missing" } ∧
    (nextRepo S w (pre ++ entry :: post)).2.2 =
      (nextRepo S w pre).2.2 ++ (nextRepo S (nextRepo S w pre).1 post).2.2 := by
  have hb : nextRepoBody S (nextRepo S w pre).1 entry =
      ((nextRepo S w pre).1, { entry with Invalid := "repo directory missing" }, []) := by
    unfold nextRepoBody
    simp only [hv, ne_eq, not_true_eq_false, if_false]
    cases hst : S.Stat (nextRepo S w pre).1 (S.expandTilde entry.Directory) with
    | ok fi => simp [hl, hs fi hst]
    | error err => simp [hl]
  refine ⟨hb, ?_, ?_⟩
  · rw [nextRepo_append]
    simp only [nextRepo, hb]
    rw [List.get?_eq_getElem?, List.getElem?_append_right (by rw [nextRepo_length])]
    simp [nextRepo_length]
  · rw [nextRepo_append]
    simp only [nextRepo, hb, List.nil_append]

theorem nextRepo_missing_directory_witness :
    (⟨"indexed", "/data/gone", [1, 2], false, ""⟩ : RepositoryConfiguration).Invalid = "" ∧
    0 < exSys.LocalVersion (nextRepo exSys 0 [⟨"fresh", "/data/sync", [1, 2], false, ""⟩]).1
      "indexed" ∧
    (nextRepo exSys 0 ([⟨"fresh", "/data/sync", [1, 2], false, ""⟩] ++
      ⟨"indexed", "/data/gone", [1, 2], false, ""⟩ ::
        [⟨"indexed", "/data/file", [1, 2], true, ""⟩])).2.1.get? 1 =
      some ⟨"indexed", "/data/gone", [1, 2], false, "repo directory missing"⟩ :=
  ⟨rfl, by decide,
    (nextRepo_missing_directory exSys 0 [⟨"fresh", "/data/sync", [1, 2], false, ""⟩]
      [⟨"indexed", "/data/file", [1, 2], true, ""⟩] ⟨"indexed", "/data/gone", [1, 2], false, ""⟩
      rfl (by decide) (by intro fi h; exact nomatch h)).2.1⟩

/-- C8 at the failing input: a repository with no files in the index whose
root path is a regular file is left valid, `AddRepo` is called for it, its
indexes are cleared and it is started. -/
theorem syncthingMain_adds_regular_file_root :
    exSys.Stat 0 "/data/file" = .ok ⟨false⟩ ∧ exSys.LocalVersion 0 "fresh" = 0 ∧
    syncthingMainRepos exSys 1 16 0 [⟨"fresh", "/data/file", [1, 2], false, ""⟩] =
      ([⟨"fresh", "/data/file", [1, 2], false, ""⟩],
        [StartEffect.AddRepo ⟨"fresh", "/data/file", [1, 2], false, ""⟩,
         StartEffect.Index 2 "fresh", StartEffect.CleanRepos, StartEffect.ScanRepos,
         StartEffect.StartRepoRW "fresh" 16]) :=
  ⟨rfl, rfl, by decide⟩

/-- Every sync call of the loop `nextRepo` is for an entry the loop leaves
valid. -/
theorem nextRepo_calls_valid {σ : Type} (S : Sys σ) (l : List RepositoryConfiguration) :
    ∀ w : σ, ∀ e ∈ (nextRepo S w l).2.2, ∀ id, e.repoID = some id →
      ∃ x ∈ (nextRepo S w l).2.1, x.ID = id ∧ x.Invalid = "" := by
  induction l with
  | nil => intro w e he; simp [nextRepo] at he
  | cons entry rest ih =>
    intro w e he id hid
    simp only [nextRepo, List.mem_append] at he
    obtain ⟨h1, _, h3, h4⟩ := nextRepoBody_effects S w entry
    rcases he with he | he
    · by_cases hi : (nextRepoBody S w entry).2.1.Invalid = ""
      · rcases (h4 hi).2 e he with rfl | rfl
        · simp [StartEffect.repoID] at hid
        · simp only [StartEffect.repoID, Option.some.injEq] at hid
          exact ⟨_, by simp [nextRepo], h1.trans hid, hi⟩
      · rw [h3 hi e he] at hid
        simp [StartEffect.repoID] at hid
    · obtain ⟨x, hx, hx2⟩ := ih _ e he id hid
      exact ⟨x, by simp [nextRepo, hx], hx2⟩

/-- C9: through `syncthingMain`, every call of `AddRepo`, `m.Index`,
`StartRepoRO` and `StartRepoRW` is made for a repository entry whose `Invalid`
field is empty when the loop `nextRepo` is over; an entry whose `Invalid`
field is not empty, whether it was so in the configuration (the loop then
leaves it as it is) or was set by the loop, has no `AddRepo` call in its pass
of the loop, no index cleared and is not started. -/
theorem invalid_repo_no_sync_activity {σ : Type} (S : Sys σ) (myID : NodeID)
    (ParallelRequests : Int) (w : σ) (cfgRepositories : List RepositoryConfiguration) :
    (∀ e ∈ (syncthingMainRepos S myID ParallelRequests w cfgRepositories).2,
      ∀ id, e.repoID = some id →
        ∃ x ∈ (syncthingMainRepos S myID ParallelRequests w cfgRepositories).1,
          x.ID = id ∧ x.Invalid = "") ∧
    (∀ (w1 : σ) (entry : RepositoryConfiguration),
      entry.Invalid ≠ "" → nextRepoBody S w1 entry = (w1, entry, [])) ∧
    (∀ (w1 : σ) (entry : RepositoryConfiguration),
      (nextRepoBody S w1 entry).2.1.Invalid ≠ "" →
        (∀ repo, StartEffect.AddRepo repo ∉ (nextRepoBody S w1 entry).2.2) ∧
        clearIndexBody myID (nextRepoBody S w1 entry).2.1 = [] ∧
        startRepoBody ParallelRequests (nextRepoBody S w1 entry).2.1 = []) := by
  refine ⟨?_, ?_, ?_⟩
  · intro e he id hid
    simp only [syncthingMainRepos, List.mem_append, List.mem_flatMap, List.mem_cons,
      List.mem_singleton, List.mem_nil_iff, or_false] at he
    rcases he with ((he | ⟨x, hx, he⟩) | he) | ⟨x, hx, he⟩
    · exact nextRepo_calls_valid S cfgRepositories w e he id hid
    · refine ⟨x, hx, ?_⟩
      unfold clearIndexBody at he
      by_cases hi : x.Invalid = ""
      · simp only [hi, ne_eq, not_true_eq_false, if_false, List.mem_map] at he
        obtain ⟨n, _, rfl⟩ := he
        simp only [StartEffect.repoID, Option.some.injEq] at hid
        exact ⟨hid, hi⟩
      · simp [hi] at he
    · rcases he with rfl | rfl <;> simp [StartEffect.repoID] at hid
    · refine ⟨x, hx, ?_⟩
      unfold startRepoBody at he
      by_cases hi : x.Invalid = ""
      · simp only [hi, ne_eq, not_true_eq_false, if_false] at he
        split at he
        · simp only [List.mem_singleton] at he
          subst he
          simp only [StartEffect.repoID, Option.some.injEq] at hid
          exact ⟨hid, hi⟩
        · simp only [List.mem_singleton] at he
          subst he
          simp only [StartEffect.repoID, Option.some.injEq] at hid
          exact ⟨hid, hi⟩
      · simp [hi] at he
  · intro w1 entry hi
    exact (nextRepoBody_effects S w1 entry).2.1 hi
  · intro w1 entry hi
    refine ⟨?_, by simp [clearIndexBody, hi], by simp [startRepoBody, hi]⟩
    intro repo hmem
    have := (nextRepoBody_effects S w1 entry).2.2.1 hi _ hmem
    simp at this

/-! ## `dialTLS`: the default port -/

theorem lastRev_of_not_mem (b : Char) (l : List Char) (h : b ∉ l) : lastRev b l = none := by
  induction l with
  | nil => rfl
  | cons c r ih =>
    have hc : c ≠ b := fun hcb => h (by simp [hcb])
    simp only [lastRev, hc, if_false]
    exact ih (fun hm => h (List.mem_cons_of_mem _ hm))

theorem lastRev_append (b : Char) (r : List Char) (a : List Char) (h : b ∉ a) :
    lastRev b (a ++ b :: r) = some r.length := by
  induction a with
  | nil => simp [lastRev]
  | cons c a ih =>
    have hc : c ≠ b := fun hcb => h (by simp [hcb])
    simp only [List.cons_append, lastRev, hc, if_false]
    exact ih (fun hm => h (List.mem_cons_of_mem _ hm))

theorem last_of_not_mem (s : List Char) (b : Char) (h : b ∉ s) : last s b = none :=
  lastRev_of_not_mem b s.reverse (by simpa using h)

theorem last_append (h p : List Char) (b : Char) (hp : b ∉ p) :
    last (h ++ b :: p) b = some h.length := by
  unfold last
  rw [List.reverse_append, List.reverse_cons, List.append_assoc, List.singleton_append,
    lastRev_append b h.reverse p.reverse (by simpa using hp), List.length_reverse]

theorem byteIndex_isSome (s : List Char) (c : Char) :
    (byteIndex s c).isSome = decide (c ∈ s) := by
  unfold byteIndex
  split <;> simp [*]

theorem JoinHostPort_plain (host port : List Char) (h1 : ':' ∉ host) :
    JoinHostPort host port = host ++ ':' :: port := by
  simp [JoinHostPort, byteIndex_isSome, h1]

theorem JoinHostPort_colon (host port : List Char) (h1 : ':' ∈ host) :
    JoinHostPort host port = '[' :: host ++ ']' :: ':' :: port := by
  simp [JoinHostPort, byteIndex_isSome, h1]

/-- The text of an error with an address starts with `address`, never with
`missing port`. -/
theorem hasPrefix_missing_port_of_addr (msg addr : List Char) (h : addr ≠ []) :
    HasPrefix (AddrError.Error ⟨msg, addr⟩) "missing port".data = false := by
  unfold HasPrefix AddrError.Error
  rw [if_neg h]
  rfl

/-- An address without any colon that is not empty is left as it is. -/
theorem dialAddr_no_colon (addr : List Char) (h : ':' ∉ addr) (hne : addr ≠ []) :
    dialAddr addr = addr := by
  have hs : SplitHostPort addr = .error ⟨"missing port in address".data, addr⟩ := by
    unfold SplitHostPort
    rw [last_of_not_mem addr ':' h]
  unfold dialAddr
  rw [hs]
  exact if_neg (by rw [hasPrefix_missing_port_of_addr _ _ hne]; decide)

theorem head?_ne_of_not_mem (h t : List Char) (c d : Char) (hc : c ∉ h) (hd : d ≠ c) :
    (h ++ d :: t).head? ≠ some c := by
  cases h with
  | nil => simpa using hd
  | cons x r =>
    simp only [List.cons_append, List.head?_cons, ne_eq, Option.some.injEq]
    intro hx
    exact hc (by simp [hx])

/-- What `SplitHostPort` answers for a host without colon or opening bracket,
a colon and a port without colon. -/
theorem SplitHostPort_plain (h p : List Char) (h1 : ':' ∉ h) (h2 : '[' ∉ h) (hp : ':' ∉ p) :
    SplitHostPort (h ++ ':' :: p) = splitHostPortTail (h ++ ':' :: p) h h.length 0 0 := by
  have hh : (h ++ ':' :: p).head? ≠ some '[' := head?_ne_of_not_mem h p '[' ':' h2 (by decide)
  simp only [SplitHostPort, last_append h p ':' hp, hh, if_false, List.take_left',
    byteIndex_isSome, h1, decide_False, Bool.false_eq_true]

theorem dialAddr_empty_port (h : List Char) (h1 : ':' ∉ h) (h2 : '[' ∉ h) (h3 : ']' ∉ h) :
    dialAddr (h ++ [':']) = h ++ ":22000".data := by
  have hs : SplitHostPort (h ++ [':']) = .ok (h, []) := by
    rw [SplitHostPort_plain h [] h1 h2 (by simp)]
    simp [splitHostPortTail, byteIndex_isSome, h2, h3]
  simp only [dialAddr, hs, if_true]
  exact JoinHostPort_plain h _ h1

theorem dialAddr_explicit_port (h p : List Char) (h1 : ':' ∉ h) (h2 : '[' ∉ h)
    (hp0 : p ≠ []) (hp : ':' ∉ p) :
    dialAddr (h ++ ':' :: p) = h ++ ':' :: p := by
  have hne : h ++ ':' :: p ≠ [] := by simp
  unfold dialAddr
  rw [SplitHostPort_plain h p h1 h2 hp]
  unfold splitHostPortTail
  split_ifs with ha hb
  · exact if_neg (by rw [hasPrefix_missing_port_of_addr _ _ hne]; decide)
  · exact if_neg (by rw [hasPrefix_missing_port_of_addr _ _ hne]; decide)
  · simp [hp0]

/-- The first call of the loop over the candidates is the attempt on the
first candidate, at the address `dialAddr` makes of it. -/
theorem dialTLSDial_head {σ : Type} (N : Net σ) (nodeID : NodeID) (w : σ) (addr : String)
    (rest : List String) :
    (dialTLSDial N nodeID w (addr :: rest)).2.head? =
      some (DialEffect.Dial nodeID (String.mk (dialAddr addr.data))) := by
  simp only [dialTLSDial]
  split <;> rfl

theorem mk_data_append (a b : String) : String.mk (a.data ++ b.data) = a ++ b := by
  cases a; cases b; rfl

theorem data_ne_nil (a : String) (h : a ≠ "") : a.data ≠ [] := by
  intro hd
  apply h
  cases a
  simp_all

/-- C10: a candidate that is not empty and has no colon, such as `10.0.0.9`,
is dialled as it is, with no port: `SplitHostPort` reports the missing port
in an error whose text starts with `address`, so the test for the prefix
`missing port` fails and 22000 is not filled in.  The rest holds: a candidate
`host:` is dialled as `host:22000`, and a candidate `host:port` with a port is
dialled unchanged. -/
theorem dialTLS_bare_host_no_default_port :
    (∀ {σ : Type} (N : Net σ) (nodeID : NodeID) (w : σ) (rest : List String) (host : String),
      host ≠ "" → ':' ∉ host.data →
      (dialTLSDial N nodeID w (host :: rest)).2.head? = some (DialEffect.Dial nodeID host)) ∧
    (dialTLSDial exNet 2 0 ["10.0.0.9"]).2 = [DialEffect.Dial 2 "10.0.0.9"] ∧
    (dialTLSDial exNet 2 0 ["10.0.0.9"]).2 ≠ [DialEffect.Dial 2 "10.0.0.9:22000"] ∧
    SplitHostPort "10.0.0.9".data =
      .error ⟨"missing port in address".data, "10.0.0.9".data⟩ ∧
    AddrError.Error ⟨"missing port in address".data, "10.0.0.9".data⟩ =
      "address 10.0.0.9: missing port in address".data ∧
    HasPrefix "address 10.0.0.9: missing port in address".data "missing port".data = false ∧
    (dialTLSDial exNet 2 0 ["[::1]"]).2 = [DialEffect.Dial 2 "[::1]"] ∧
    (∀ {σ : Type} (N : Net σ) (nodeID : NodeID) (w : σ) (rest : List String)
      (host port : String),
      ':' ∉ host.data → '[' ∉ host.data → ']' ∉ host.data →
      (dialTLSDial N nodeID w ((host ++ ":") :: rest)).2.head? =
        some (DialEffect.Dial nodeID (host ++ ":22000")) ∧
      (port ≠ "" → ':' ∉ port.data →
        (dialTLSDial N nodeID w ((host ++ ":" ++ port) :: rest)).2.head? =
          some (DialEffect.Dial nodeID (host ++ ":" ++ port)))) ∧
    (dialTLSDial exNet 2 0 ["10.0.0.9:", "10.0.0.9:8080"]).2 =
      [DialEffect.Dial 2 "10.0.0.9:22000", DialEffect.Dial 2 "10.0.0.9:8080",
        DialEffect.Send ⟨1, [⟨[2]⟩], "10.0.0.1:50000", "10.0.0.9:8080"⟩] := by
  have hb1 : (dialTLSDial exNet 2 0 ["10.0.0.9"]).2 = [DialEffect.Dial 2 "10.0.0.9"] := by
    decide
  have hb2 : (dialTLSDial exNet 2 0 ["10.0.0.9"]).2 ≠ [DialEffect.Dial 2 "10.0.0.9:22000"] := by
    decide
  have hb3 : AddrError.Error ⟨"missing port in address".data, "10.0.0.9".data⟩ =
      "address 10.0.0.9: missing port in address".data := by decide
  have hb6 : HasPrefix "address 10.0.0.9: missing port in address".data "missing port".data =
      false := by decide
  have hb4 : (dialTLSDial exNet 2 0 ["[::1]"]).2 = [DialEffect.Dial 2 "[::1]"] := by decide
  have hb5 : (dialTLSDial exNet 2 0 ["10.0.0.9:", "10.0.0.9:8080"]).2 =
      [DialEffect.Dial 2 "10.0.0.9:22000", DialEffect.Dial 2 "10.0.0.9:8080",
        DialEffect.Send ⟨1, [⟨[2]⟩], "10.0.0.1:50000", "10.0.0.9:8080"⟩] := by decide
  refine ⟨?_, hb1, hb2, rfl, hb3, hb6, hb4, ?_, hb5⟩
  · intro σ N nodeID w rest host hne hc
    rw [dialTLSDial_head, dialAddr_no_colon _ hc (data_ne_nil host hne)]
  · intro σ N nodeID w rest host port h1 h2 h3
    constructor
    · rw [dialTLSDial_head]
      have e : (host ++ ":").data = host.data ++ [':'] := by simp
      rw [e, dialAddr_empty_port _ h1 h2 h3]
      exact congrArg _ (congrArg _ (mk_data_append host ":22000"))
    · intro hp0 hp
      rw [dialTLSDial_head]
      have e : (host ++ ":" ++ port).data = host.data ++ ':' :: port.data := by simp
      rw [e, dialAddr_explicit_port _ _ h1 h2 (data_ne_nil port hp0) hp, ← e]

/-! ## Ignore matcher -/

/-- The first rule that hits a path decides, whatever follows it. -/
theorem matchPath_first_hit (r : IgnoreRule) (post : List IgnoreRule) (p : Path)
    (hr : r.hits p = true) :
    ∀ pre : List IgnoreRule, (∀ q ∈ pre, q.hits p = false) →
      matchPath (pre ++ r :: post) p = !r.negated := by
  intro pre
  induction pre with
  | nil => intro _; simp [matchPath, hr]
  | cons q rest ih =>
    intro h
    have hq : q.hits p = false := h q (by simp)
    simp only [List.cons_append, matchPath, hq, Bool.false_eq_true, if_false]
    exact ih (fun x hx => h x (List.mem_cons_of_mem _ hx))

theorem matchPath_no_hit (p : Path) :
    ∀ rules : List IgnoreRule, (∀ q ∈ rules, q.hits p = false) → matchPath rules p = false := by
  intro rules
  induction rules with
  | nil => intro _; rfl
  | cons q rest ih =>
    intro h
    have hq : q.hits p = false := h q (by simp)
    simp only [matchPath, hq, Bool.false_eq_true, if_false]
    exact ih (fun x hx => h x (List.mem_cons_of_mem _ hx))

/-- C11: in the matcher modelled from the spec, `Match` returns the outcome of
the first rule in file order that matches the path or one of its ancestor
directories, true for a plain rule and false for a negated one, whatever rules
follow it, and false when no rule matches; the rules of `TestExcludes` parse
to five rules that give the eleven outcomes the test expects. -/
theorem Match_first_match_wins :
    (∀ (pre post : List IgnoreRule) (r : IgnoreRule) (file : String),
      (∀ q ∈ pre, q.hits (toPath file) = false) → r.hits (toPath file) = true →
        Match (pre ++ r :: post) file = !r.negated) ∧
    (∀ (rules : List IgnoreRule) (file : String),
      (∀ q ∈ rules, q.hits (toPath file) = false) → Match rules file = false) ∧
    (∃ pats, Parse exRuleFiles exStignore ".stignore" = .ok pats ∧
      pats.map (fun r => (r.pattern, r.anchored, r.negated)) =
        [("iex2", false, true), ("ign1/ex", true, true), ("ign1", false, false),
         ("i*2", false, false), ("ign2", false, true)] ∧
      ["ign1", "ign2", "ibla2", "ign1/ign", "foo/bar/ign1", "foo/bar/ign2"].map (Match pats) =
        [true, true, true, true, true, true] ∧
      ["iex2", "ign1/ex", "ign1/iex2", "iex2/ign", "foo/bar/iex2"].map (Match pats) =
        [false, false, false, false, false]) := by
  refine ⟨?_, ?_, ?_⟩
  · intro pre post r file hpre hr
    exact matchPath_first_hit r post (toPath file) hr pre hpre
  · intro rules file h
    exact matchPath_no_hit (toPath file) rules h
  · have q : (Parse exRuleFiles exStignore ".stignore").toOption.map
        (fun pats => (pats.map (fun r => (r.pattern, r.anchored, r.negated)),
          ["ign1", "ign2", "ibla2", "ign1/ign", "foo/bar/ign1", "foo/bar/ign2"].map (Match pats),
          ["iex2", "ign1/ex", "ign1/iex2", "iex2/ign", "foo/bar/iex2"].map (Match pats))) =
        some ([("iex2", false, true), ("ign1/ex", true, true), ("ign1", false, false),
          ("i*2", false, false), ("ign2", false, true)],
          [true, true, true, true, true, true], [false, false, false, false, false]) := by
      decide
    cases h : Parse exRuleFiles exStignore ".stignore" with
    | error e =>
      rw [h] at q
      exact nomatch q
    | ok pats =>
      rw [h] at q
      have q1 := Option.some.inj q
      exact ⟨pats, rfl, (Prod.mk.inj q1).1, (Prod.mk.inj (Prod.mk.inj q1).2).1,
        (Prod.mk.inj (Prod.mk.inj q1).2).2⟩

/-- The lines of a rule file fail as soon as one of them fails. -/
theorem parseLines_error (F : RuleFiles) (incl : String → Except ParseError (List IgnoreRule))
    (bad : List Char) (hbad : ∃ e, parseLine F incl bad = .error e) :
    ∀ lines : List (List Char), bad ∈ lines → ∃ e, parseLines F incl lines = .error e := by
  intro lines
  induction lines with
  | nil => intro h; simp at h
  | cons l rest ih =>
    intro hmem
    simp only [parseLines]
    cases hl : parseLine F incl l with
    | error e => exact ⟨e, rfl⟩
    | ok rs =>
      rcases List.mem_cons.mp hmem with rfl | hmem
      · obtain ⟨e, he⟩ := hbad
        rw [hl] at he
        exact nomatch he
      · obtain ⟨e, he⟩ := ih hmem
        rw [he]
        exact ⟨e, rfl⟩

/-- A malformed line fails, at every depth of inclusion left. -/
theorem parseLine_malformed (F : RuleFiles) (name : String)
    (incl : String → Except ParseError (List IgnoreRule))
    (hincl : ∀ file, file = name ∨ F.files.lookup file = none → ∃ e, incl file = .error e)
    (raw : List Char) (h : Malformed F name raw) :
    ∃ e, parseLine F incl raw = .error e := by
  unfold parseLine
  rcases h with ⟨h0, h1, h2, h3, h4⟩ | ⟨h1, h2⟩ | ⟨h1, h2⟩ | ⟨h0, h1, h2⟩
  · rw [if_neg h0, h1, if_neg (by simp), if_neg h2]
    unfold patternOf at h4
    by_cases hn : (trimLine raw).head? = some '!'
    · rw [if_pos hn, h3 hn, if_neg (by simp)]
      rw [if_pos hn] at h4
      simp only [mkRule, h4, Option.map_none']
      exact ⟨_, rfl⟩
    · rw [if_neg hn]
      rw [if_neg hn] at h4
      simp only [mkRule, h4, Option.map_none']
      exact ⟨_, rfl⟩
  · have h0 : trimLine raw ≠ [] := by
      intro h; rw [h] at h1; exact absurd h1 (by decide)
    rw [if_neg h0, if_pos h1]
    exact hincl _ (Or.inr h2)
  · have h0 : trimLine raw ≠ [] := by
      intro h; rw [h] at h1; exact absurd h1 (by decide)
    rw [if_neg h0, if_pos h1]
    exact hincl _ (Or.inl h2)
  · have hne : trimLine raw ≠ [] := by
      intro h; rw [h] at h1; exact absurd h1 (by simp)
    have hni : includePrefix.isPrefixOf (trimLine raw) = false := by
      cases ht : trimLine raw with
      | nil => exact absurd ht hne
      | cons c cs =>
        rw [ht] at h1
        simp only [List.head?_cons, Option.some.injEq] at h1
        subst h1
        rfl
    rw [if_neg hne, hni, if_neg (by simp), if_neg h0, if_pos h1, if_pos h2]
    exact ⟨_, rfl⟩

theorem parseLine_depth (F : RuleFiles) (incl : String → Except ParseError (List IgnoreRule))
    (raw : List Char) (h : parseLine F incl raw = .error ParseError.includeDepth) :
    ∃ file, incl file = .error ParseError.includeDepth := by
  unfold parseLine at h
  split_ifs at h with h1 h2 h3 h4 h5
  · exact ⟨_, h⟩
  · exact nomatch h
  · unfold mkRule at h
    cases hc : compileGlob (List.drop 1 (trimLine raw)) with
    | none => rw [hc] at h; exact nomatch h
    | some g => rw [hc] at h; exact nomatch h
  · unfold mkRule at h
    cases hc : compileGlob (trimLine raw) with
    | none => rw [hc] at h; exact nomatch h
    | some g => rw [hc] at h; exact nomatch h

theorem parseLines_depth (F : RuleFiles) (incl : String → Except ParseError (List IgnoreRule)) :
    ∀ lines : List (List Char), parseLines F incl lines = .error ParseError.includeDepth →
    ∃ file, incl file = .error ParseError.includeDepth := by
  intro lines
  induction lines with
  | nil => intro h; exact nomatch h
  | cons l rest ih =>
    intro h
    simp only [parseLines] at h
    cases hl : parseLine F incl l with
    | error e =>
      rw [hl] at h
      have he : e = ParseError.includeDepth := by injection h
      subst he
      exact parseLine_depth F incl l hl
    | ok rs =>
      rw [hl] at h
      cases hr : parseLines F incl rest with
      | error e =>
        rw [hr] at h
        have he : e = ParseError.includeDepth := by injection h
        subst he
        exact ih hr
      | ok rs2 => rw [hr] at h; exact nomatch h

/-- The bound on the depth of inclusion is never reached: the files being
read are distinct files that exist. -/
theorem parseText_depth (F : RuleFiles) (name : String) :
    ∀ (depth : Nat) (inner : List String) (lines : List (List Char)),
      (inner ++ [name]).Nodup → (∀ f ∈ inner, f ∈ F.files.map Prod.fst) →
      F.files.length + 1 ≤ depth + inner.length →
      parseText F depth (inner ++ [name]) lines ≠ .error ParseError.includeDepth := by
  intro depth
  induction depth with
  | zero =>
    intro inner lines hnd hsub hlen
    have hnd2 : inner.Nodup := (List.nodup_append.mp hnd).1
    have := (List.subperm_of_subset hnd2 hsub).length_le
    simp only [List.length_map] at this
    omega
  | succ d ih =>
    intro inner lines hnd hsub hlen h
    simp only [parseText] at h
    obtain ⟨file, hf⟩ := parseLines_depth F _ lines h
    by_cases hs : file ∈ inner ++ [name]
    · rw [if_pos hs] at hf; exact nomatch hf
    · rw [if_neg hs] at hf
      cases hlk : F.files.lookup file with
      | none => rw [hlk] at hf; exact nomatch hf
      | some text =>
        rw [hlk] at hf
        have hmem : file ∈ F.files.map Prod.fst := by
          have := List.lookup_eq_some_iff.mp hlk
          obtain ⟨l1, l2, hl, _⟩ := this
          rw [hl]
          simp
        refine ih (file :: inner) _ ?_ ?_ ?_ hf
        · rw [List.cons_append]
          exact List.nodup_cons.mpr ⟨hs, hnd⟩
        · intro f hfm
          rcases List.mem_cons.mp hfm with rfl | hfm
          · exact hmem
          · exact hsub f hfm
        · simp only [List.length_cons]; omega

/-- C12: in the parser modelled from the spec, for every text of a rule file
one of whose lines is a pattern with an unterminated character class, an
`#include` of a file that does not exist, an `#include` of the file being
parsed or a negated `#include`, `Parse` returns an error and so no rule; the
six texts of `TestBadPatterns` give the error of their kind, and the bound on
the depth of inclusion is never what makes `Parse` fail. -/
theorem Parse_rejects_malformed :
    (∀ (F : RuleFiles) (text name : String) (line : List Char),
      line ∈ splitAtChar '\n' text.data → Malformed F name line →
        ∃ e, Parse F text name = .error e) ∧
    Parse exRuleFiles "[" ".stignore" = .error (ParseError.badPattern "[") ∧
    Parse exRuleFiles "/[" ".stignore" = .error (ParseError.badPattern "/[") ∧
    Parse exRuleFiles "**/[" ".stignore" = .error (ParseError.badPattern "**/[") ∧
    Parse exRuleFiles "#include nonexistent" ".stignore" =
      .error (ParseError.includeMissing "nonexistent") ∧
    Parse exRuleFiles "#include .stignore" ".stignore" =
      .error (ParseError.includeCycle ".stignore") ∧
    Parse exRuleFiles "!#include makesnosense" ".stignore" =
      .error (ParseError.negatedInclude "!#include makesnosense") ∧
    (∀ (F : RuleFiles) (text name : String),
      Parse F text name ≠ .error ParseError.includeDepth) := by
  refine ⟨?_, rfl, rfl, rfl, rfl, rfl, rfl, ?_⟩
  swap
  · intro F text name
    exact parseText_depth F name (F.files.length + 1) [] _ (by simp) (by simp) (by simp)
  intro F text name line hmem hbad
  unfold Parse
  simp only [parseText]
  refine parseLines_error F _ line ?_ _ hmem
  refine parseLine_malformed F name _ ?_ line hbad
  intro file hfile
  rcases hfile with rfl | hfile
  · exact ⟨ParseError.includeCycle file, by simp⟩
  · by_cases hs : file ∈ [name]
    · exact ⟨_, by rw [if_pos hs]⟩
    · exact ⟨_, by rw [if_neg hs, hfile]⟩


/-- The paths a rule is tested against for a child are the child and the
paths tested for its directory. -/
theorem tested_child (d : Path) (x : String) : tested (d ++ [x]) = (d ++ [x]) :: tested d := by
  unfold tested
  rw [List.length_append, List.length_singleton, List.range_succ_eq_map, List.map_cons,
    List.map_map]
  congr 1
  · simp
  · apply List.map_congr_left
    intro k hk
    have hk2 : k < d.length := List.mem_range.mp hk
    simp only [Function.comp, Nat.succ_eq_add_one]
    rw [show d.length + 1 - (k + 1) = d.length - k by omega]
    exact List.take_append_of_le_length (by omega)

theorem hits_child (r : IgnoreRule) (d : Path) (x : String) :
    r.hits (d ++ [x]) = (r.matchesPath (d ++ [x]) || r.hits d) := by
  simp [IgnoreRule.hits, tested_child]

theorem splitAtChar_ne_nil (sep : Char) (a : List Char) : splitAtChar sep a ≠ [] := by
  cases a with
  | nil => simp [splitAtChar]
  | cons c cs =>
    simp only [splitAtChar]
    split_ifs
    · simp
    · split <;> simp

theorem splitAtChar_cons_sep (sep : Char) (cs : List Char) :
    splitAtChar sep (sep :: cs) = [] :: splitAtChar sep cs := by
  simp [splitAtChar]

theorem splitAtChar_cons_ne (sep c : Char) (cs h : List Char) (t : List (List Char))
    (hc : c ≠ sep) (hs : splitAtChar sep cs = h :: t) :
    splitAtChar sep (c :: cs) = (c :: h) :: t := by
  simp [splitAtChar, hc, hs]

theorem splitAtChar_append (sep : Char) (b : List Char) (a : List Char) :
    splitAtChar sep (a ++ sep :: b) = splitAtChar sep a ++ splitAtChar sep b := by
  induction a with
  | nil => simp [splitAtChar]
  | cons c cs ih =>
    rw [List.cons_append]
    by_cases hc : c = sep
    · subst hc
      rw [splitAtChar_cons_sep, splitAtChar_cons_sep, ih]
      rfl
    · cases h : splitAtChar sep cs with
      | nil => exact absurd h (splitAtChar_ne_nil sep cs)
      | cons x t =>
        rw [h] at ih
        rw [splitAtChar_cons_ne sep c _ x (t ++ splitAtChar sep b) hc ih,
          splitAtChar_cons_ne sep c _ x t hc h]
        rfl

theorem splitAtChar_single (sep : Char) (x : List Char) (h : sep ∉ x) :
    splitAtChar sep x = [x] := by
  induction x with
  | nil => rfl
  | cons c cs ih =>
    have hc : c ≠ sep := fun hcs => h (by simp [hcs])
    have hcs : sep ∉ cs := fun hm => h (List.mem_cons_of_mem _ hm)
    simp [splitAtChar, hc, ih hcs]

/-- The path of `d/x` is the path of `d` followed by the name `x`. -/
theorem toPath_child (d x : String) (hx : '/' ∉ x.data) :
    toPath (d ++ "/" ++ x) = toPath d ++ [x] := by
  have e : (d ++ "/" ++ x).data = d.data ++ '/' :: x.data := by simp
  unfold toPath
  rw [e, splitAtChar_append, splitAtChar_single '/' x.data hx]
  simp

/-- The propagation of a match from a directory to a child, on paths. -/
theorem matchPath_child (x : String) (d : Path) :
    ∀ rules : List IgnoreRule, matchPath rules d = true →
    matchPath rules (d ++ [x]) = true ∨
    (matchPath rules (d ++ [x]) = false ∧
      ∃ pre r post, rules = pre ++ r :: post ∧ r.negated = true ∧
        r.matchesPath (d ++ [x]) = true ∧
        (∀ q ∈ pre, q.hits (d ++ [x]) = false) ∧
        (∀ q ∈ pre ++ [r], q.hits d = false)) := by
  intro rules
  induction rules with
  | nil => intro h; simp [matchPath] at h
  | cons r rest ih =>
    intro h
    simp only [matchPath] at h ⊢
    by_cases hd : r.hits d = true
    · rw [if_pos hd] at h
      have hx : r.hits (d ++ [x]) = true := by rw [hits_child, hd, Bool.or_true]
      left
      rw [if_pos hx]
      exact h
    · rw [if_neg hd] at h
      have hd2 : r.hits d = false := by simpa using hd
      by_cases hx : r.hits (d ++ [x]) = true
      · rw [if_pos hx]
        have hm : r.matchesPath (d ++ [x]) = true := by
          rw [hits_child, hd2, Bool.or_false] at hx
          exact hx
        cases hn : r.negated with
        | false => left; rfl
        | true =>
          right
          refine ⟨rfl, [], r, rest, rfl, hn, hm, by simp, ?_⟩
          intro q hq
          simp only [List.nil_append, List.mem_singleton] at hq
          rw [hq]
          exact hd2
      · rw [if_neg hx]
        have hx2 : r.hits (d ++ [x]) = false := by simpa using hx
        rcases ih h with h1 | ⟨h1, pre, r1, post, hrules, hn, hm, hpre, hpre2⟩
        · left; exact h1
        · right
          refine ⟨h1, r :: pre, r1, post, by rw [hrules]; rfl, hn, hm, ?_, ?_⟩
          · intro q hq
            rcases List.mem_cons.mp hq with rfl | hq
            · exact hx2
            · exact hpre q hq
          · intro q hq
            rw [List.cons_append] at hq
            rcases List.mem_cons.mp hq with rfl | hq
            · exact hd2
            · exact hpre2 q hq

/-- C13: in the matcher modelled from the spec, for every rule list, directory
path `d` and name `x`: if `Match(d)` is true then `Match(d/x)` is true, unless
a rule earlier in the file resolves `d/x` differently: a negated rule that
stands before every rule matching `d` or an ancestor of `d`, matches the path
`d/x` itself and is the first rule to match `d/x`, so that `Match(d/x)` is
false. -/
theorem Match_directory_propagation (pats : List IgnoreRule) (d x : String)
    (hx : '/' ∉ x.data) (h : Match pats d = true) :
    Match pats (d ++ "/" ++ x) = true ∨
    (Match pats (d ++ "/" ++ x) = false ∧
      ∃ pre r post, pats = pre ++ r :: post ∧ r.negated = true ∧
        r.matchesPath (toPath (d ++ "/" ++ x)) = true ∧
        (∀ q ∈ pre, q.hits (toPath (d ++ "/" ++ x)) = false) ∧
        (∀ q ∈ pre ++ [r], q.hits (toPath d) = false)) := by
  unfold Match at h ⊢
  rw [toPath_child d x hx]
  exact matchPath_child x (toPath d) pats h

theorem Match_directory_propagation_witness :
    '/' ∉ "ign".data ∧ Match exPatterns "ign1" = true ∧
    (Match exPatterns ("ign1" ++ "/" ++ "ign") = true ∨
      (Match exPatterns ("ign1" ++ "/" ++ "ign") = false ∧
        ∃ pre r post, exPatterns = pre ++ r :: post ∧ r.negated = true ∧
          r.matchesPath (toPath ("ign1" ++ "/" ++ "ign")) = true ∧
          (∀ q ∈ pre, q.hits (toPath ("ign1" ++ "/" ++ "ign")) = false) ∧
          (∀ q ∈ pre ++ [r], q.hits (toPath "ign1") = false))) :=
  ⟨by decide, by decide,
    Match_directory_propagation exPatterns "ign1" "ign" (by decide) (by decide)⟩

/-! ## Tree scanner -/

/-- C14: in the scanner modelled from the spec, `Walk` returns an error, and
so no entries, whenever the root does not exist or is not a directory
(whatever the sub-path, block size and matcher), and it returns entries
without error whenever the root is a directory. -/
theorem Walk_root_errors (sub : Path) (blockSize : Nat) (ignores : Path → Bool)
    (hash : List Nat → List Nat) :
    Walker.Walk ⟨Root.missing, sub, blockSize, ignores⟩ hash = .error WalkError.rootMissing ∧
    Walker.Walk ⟨Root.notDirectory, sub, blockSize, ignores⟩ hash =
      .error WalkError.rootNotDirectory ∧
    (∀ content, ∃ entries,
      Walker.Walk ⟨Root.directory content, sub, blockSize, ignores⟩ hash = .ok entries) :=
  ⟨rfl, rfl, fun _ => ⟨_, rfl⟩⟩

theorem notIgnored_child (isIgnored : Path → Bool) (d : Path) (x : String) :
    notIgnored isIgnored (d ++ [x]) = (!isIgnored (d ++ [x]) && notIgnored isIgnored d) := by
  simp [notIgnored, tested_child]

/-- Below an ignored path nothing is kept. -/
theorem treePaths_filter_ignored (isIgnored : Path → Bool) (t : Tree) :
    ∀ parent : Path, notIgnored isIgnored parent = false →
      (treePaths parent t).filter (notIgnored isIgnored) = [] := by
  induction t with
  | nil => intro parent _; rfl
  | file name content rest ih =>
    intro parent h
    simp [treePaths, notIgnored_child, h, ih parent h]
  | symlink name target rest ih =>
    intro parent h
    simp [treePaths, notIgnored_child, h, ih parent h]
  | dir name children rest ihc ihr =>
    intro parent h
    have hc : notIgnored isIgnored (parent ++ [name]) = false := by
      rw [notIgnored_child, h, Bool.and_false]
    simp [treePaths, hc, ihc _ hc, ihr parent h]

/-- The walk keeps the paths of the tree that are not ignored and have no
ignored ancestor. -/
theorem walkTree_paths (isIgnored : Path → Bool) (hash : List Nat → List Nat) (blockSize : Nat)
    (t : Tree) : ∀ parent : Path, notIgnored isIgnored parent = true →
      (walkTree isIgnored hash blockSize parent t).map FileEntry.path =
        (treePaths parent t).filter (notIgnored isIgnored) := by
  induction t with
  | nil => intro parent _; rfl
  | file name content rest ih =>
    intro parent h
    simp only [walkTree, treePaths, List.map_append, ih parent h, List.filter_cons,
      notIgnored_child, h, Bool.and_true]
    cases isIgnored (parent ++ [name]) <;> simp
  | symlink name target rest ih =>
    intro parent h
    simp only [walkTree, treePaths, List.map_append, ih parent h, List.filter_cons,
      notIgnored_child, h, Bool.and_true]
    cases isIgnored (parent ++ [name]) <;> simp
  | dir name children rest ihc ihr =>
    intro parent h
    simp only [walkTree, treePaths, List.map_append, ihr parent h, List.filter_cons,
      List.filter_append, notIgnored_child, h, Bool.and_true]
    cases hi : isIgnored (parent ++ [name]) with
    | true =>
      have hc : notIgnored isIgnored (parent ++ [name]) = false := by
        rw [notIgnored_child, hi]; rfl
      simp [treePaths_filter_ignored isIgnored children _ hc]
    | false =>
      have hc : notIgnored isIgnored (parent ++ [name]) = true := by
        rw [notIgnored_child, hi, h]; rfl
      simp [ihc _ hc]

theorem mem_tested (p q : Path) (hq : q ≠ []) (hpre : q <+: p) : q ∈ tested p := by
  obtain ⟨t, rfl⟩ := hpre
  unfold tested
  rw [List.mem_map]
  refine ⟨t.length, List.mem_range.mpr ?_, ?_⟩
  · have : 0 < q.length := List.length_pos.mpr hq
    simp only [List.length_append]; omega
  · simp

/-- C15: in the scanner modelled from the spec, for every tree and matcher
`Walk` yields exactly the files and directories of the tree, at or under the
sub-path when `Sub` is set, for which neither the path nor any ancestor
directory is matched, in the order of the tree and once for each place in the
tree (so each path once when the tree has no path twice); it yields nothing
at or inside an ignored directory; and the matcher is asked about paths
relative to the root also when a sub-directory is walked, as in
`TestWalkSub`. -/
theorem Walk_yields_complement (content : Tree) (sub : Path) (blockSize : Nat)
    (ignores : Path → Bool) (hash : List Nat → List Nat) :
    (∃ entries,
      Walker.Walk ⟨Root.directory content, sub, blockSize, ignores⟩ hash = .ok entries ∧
      entries.map FileEntry.path =
        (treePaths [] content).filter (fun p => notIgnored ignores p && sub.isPrefixOf p) ∧
      ((treePaths [] content).Nodup → (entries.map FileEntry.path).Nodup) ∧
      (∀ d : Path, d ≠ [] → ignores d = true → ∀ f ∈ entries, ¬ d <+: f.path)) ∧
    (Walker.Walk ⟨Root.directory exTree, ["dir2"], 131072, exIgnores⟩ (fun b => b)).toOption.map
      (fun entries => entries.map FileEntry.Name) = some ["dir2", "dir2/cfile"] := by
  have hpaths : ((walkTree ignores hash blockSize [] content).filter
      (fun f => sub.isPrefixOf f.path)).map FileEntry.path =
      (treePaths [] content).filter (fun p => notIgnored ignores p && sub.isPrefixOf p) := by
    have h1 := walkTree_paths ignores hash blockSize content [] rfl
    rw [show (fun f : FileEntry => sub.isPrefixOf f.path) =
      (fun p => sub.isPrefixOf p) ∘ FileEntry.path from rfl, ← List.filter_map, h1,
      List.filter_filter]
    congr 1
    funext p
    exact Bool.and_comm _ _
  refine ⟨⟨_, rfl, hpaths, ?_, ?_⟩, by decide⟩
  · intro hnd
    rw [hpaths]
    exact hnd.filter _
  · intro d hd hi f hf hpre
    have hmem : f.path ∈ (treePaths [] content).filter
        (fun p => notIgnored ignores p && sub.isPrefixOf p) := by
      rw [← hpaths]
      exact List.mem_map_of_mem _ hf
    have hn := (List.mem_filter.mp hmem).2
    simp only [Bool.and_eq_true] at hn
    have hall := hn.1
    unfold notIgnored at hall
    rw [List.all_eq_true] at hall
    have := hall d (mem_tested f.path d hd hpre)
    simp [hi] at this

/-! ## GUI: the CSRF check -/

theorem validCsrfToken_iff (csrfTokens : List String) (token : String) :
    validCsrfToken csrfTokens token = true ↔ token ∈ csrfTokens := by
  induction csrfTokens with
  | nil => simp [validCsrfToken]
  | cons t rest ih =>
    simp only [validCsrfToken, List.mem_cons]
    by_cases h : t = token
    · simp [h]
    · rw [if_neg h, ih]
      constructor
      · exact Or.inr
      · rintro (h1 | h1)
        · exact absurd h1.symm h
        · exact h1

/-- The token just issued is the last of the list. -/
theorem newCsrfToken_last (csrfTokens : List String) (random : String) :
    ∃ kept, (newCsrfToken csrfTokens random).1 = kept ++ [random] := by
  unfold newCsrfToken
  split_ifs with h
  · refine ⟨csrfTokens.drop ((csrfTokens ++ [random]).length - 10), ?_⟩
    simp only [List.length_append, List.length_singleton] at h ⊢
    rw [List.drop_append_of_le_length (by omega)]
  · exact ⟨csrfTokens, rfl⟩

/-- C16, as stated, fails: a GET request under the protected prefix that
carries no CSRF token is handed to the next handler, and so is a POST request
without CSRF token that carries the API key. -/
theorem csrfMiddleware_forwards_without_token :
    HasPrefix "/rest/system".data "/rest".data = true ∧
    validCsrfToken [] "" = false ∧
    csrfMiddleware "/rest" "" "tok" [] (exRequest "/rest/system" "GET" "" "" none) =
      ([], [HttpEffect.Next]) ∧
    csrfMiddleware "/rest" "key" "tok" [] (exRequest "/rest/system" "POST" "key" "" none) =
      ([], [HttpEffect.Next]) := by
  decide

/-- C16, as amended: for every request whose URL path starts with the
protected prefix, whose method is not GET, that does not carry the configured
non-empty API key and whose `X-CSRF-Token` header is not a valid token,
`csrfMiddleware` answers 403 and does nothing else: the next handler is not
invoked and the tokens are unchanged. -/
theorem csrfMiddleware_rejects (urlPrefix apiKey random : String) (csrfTokens : List String)
    (r : Request)
    (hp : HasPrefix r.Path.data urlPrefix.data = true) (hm : r.Method ≠ "GET")
    (hk : ¬ (apiKey ≠ "" ∧ r.Header "X-API-Key" = apiKey))
    (ht : validCsrfToken csrfTokens (r.Header "X-CSRF-Token") = false) :
    csrfMiddleware urlPrefix apiKey random csrfTokens r =
      (csrfTokens, [HttpEffect.Error "CSRF Error" 403]) := by
  unfold csrfMiddleware
  rw [if_neg hk, if_neg (by simp [hp]), if_neg hm, if_pos (by simp [ht])]

theorem csrfMiddleware_rejects_witness :
    HasPrefix (exRequest "/rest/system" "POST" "" "stale" none).Path.data "/rest".data = true ∧
    validCsrfToken ["tok1", "tok2"] "stale" = false ∧
    csrfMiddleware "/rest" "key" "tok" ["tok1", "tok2"]
        (exRequest "/rest/system" "POST" "" "stale" none) =
      (["tok1", "tok2"], [HttpEffect.Error "CSRF Error" 403]) :=
  ⟨by decide, by decide,
    csrfMiddleware_rejects "/rest" "key" "tok" ["tok1", "tok2"]
      (exRequest "/rest/system" "POST" "" "stale" none) (by decide) (by decide) (by decide)
      (by decide)⟩

/-- C17, as stated, fails: a request for the front page without CSRF-Token
cookie that carries the API key is handed to the next handler and no cookie
is set. -/
theorem csrfMiddleware_no_cookie_with_api_key :
    HasPrefix "/".data "/rest".data = false ∧
    (exRequest "/" "GET" "key" "" none).Cookie "CSRF-Token" = none ∧
    csrfMiddleware "/rest" "key" "tok" [] (exRequest "/" "GET" "key" "" none) =
      ([], [HttpEffect.Next]) := by
  decide

/-- C17, as amended: for every request that does not carry the configured
non-empty API key, whose path does not start with the protected prefix and
that carries no CSRF-Token cookie, `csrfMiddleware` issues a new token, sets
the CSRF-Token cookie to it and hands the request to the next handler; the
token is the last of `csrfTokens` afterwards and `validCsrfToken` accepts
it. -/
theorem csrfMiddleware_issues_cookie (urlPrefix apiKey random : String)
    (csrfTokens : List String) (r : Request)
    (hk : ¬ (apiKey ≠ "" ∧ r.Header "X-API-Key" = apiKey))
    (hp : HasPrefix r.Path.data urlPrefix.data = false)
    (hc : r.Cookie "CSRF-Token" = none) :
    (csrfMiddleware urlPrefix apiKey random csrfTokens r).2 =
      [HttpEffect.SetCookie "CSRF-Token" random, HttpEffect.Next] ∧
    (csrfMiddleware urlPrefix apiKey random csrfTokens r).1 =
      (newCsrfToken csrfTokens random).1 ∧
    (∃ kept, (csrfMiddleware urlPrefix apiKey random csrfTokens r).1 = kept ++ [random]) ∧
    validCsrfToken (csrfMiddleware urlPrefix apiKey random csrfTokens r).1 random = true := by
  have h : csrfMiddleware urlPrefix apiKey random csrfTokens r =
      ((newCsrfToken csrfTokens random).1,
        [HttpEffect.SetCookie "CSRF-Token" (newCsrfToken csrfTokens random).2,
          HttpEffect.Next]) := by
    unfold csrfMiddleware
    rw [if_neg hk, if_pos (by simp [hp]), hc]
  obtain ⟨kept, hkept⟩ := newCsrfToken_last csrfTokens random
  rw [h]
  refine ⟨rfl, rfl, ⟨kept, hkept⟩, ?_⟩
  rw [validCsrfToken_iff]
  show random ∈ (newCsrfToken csrfTokens random).1
  rw [hkept]
  simp

theorem csrfMiddleware_issues_cookie_witness :
    HasPrefix (exRequest "/index.html" "GET" "" "" none).Path.data "/rest".data = false ∧
    (exRequest "/index.html" "GET" "" "" none).Cookie "CSRF-Token" = none ∧
    (csrfMiddleware "/rest" "key" "tok" ["tok1"] (exRequest "/index.html" "GET" "" "" none)).2 =
      [HttpEffect.SetCookie "CSRF-Token" "tok", HttpEffect.Next] ∧
    validCsrfToken
      (csrfMiddleware "/rest" "key" "tok" ["tok1"] (exRequest "/index.html" "GET" "" "" none)).1
      "tok" = true :=
  ⟨by decide, by decide,
    (csrfMiddleware_issues_cookie "/rest" "key" "tok" ["tok1"]
      (exRequest "/index.html" "GET" "" "" none) (by decide) (by decide) (by decide)).1,
    (csrfMiddleware_issues_cookie "/rest" "key" "tok" ["tok1"]
      (exRequest "/index.html" "GET" "" "" none) (by decide) (by decide) (by decide)).2.2.2⟩

/-! ## Monitor -/

theorem copyStdout_snoc (lines : List String) (line : String) :
    copyStdout (lines ++ [line]) = copyStdoutLine (copyStdout lines) line := by
  simp [copyStdout, List.foldl_append]

/-- What `stdoutLastLines` holds after any lines: all of them up to fifty
lines, and from then on the first 49 lines followed by the line read last. -/
theorem copyStdout_lastLines (lines : List String) :
    (copyStdout lines).stdoutLastLines =
      if lines.length ≤ 50 then lines else lines.take 49 ++ lines.drop (lines.length - 1) := by
  induction lines using List.reverseRecOn with
  | nil => rfl
  | append_singleton l x ih =>
    rw [copyStdout_snoc]
    simp only [copyStdoutLine, ih, List.length_append, List.length_singleton]
    by_cases h1 : l.length + 1 ≤ 50
    · have h2 : l.length ≤ 50 := by omega
      have h3 : l.length ≠ 50 := by omega
      simp [h1, h2, h3]
    · have hr : List.take 49 (l ++ [x]) ++ List.drop (l.length + 1 - 1) (l ++ [x]) =
          List.take 49 l ++ [x] := by
        rw [List.take_append_of_le_length (by omega), Nat.add_sub_cancel,
          List.drop_left]
      by_cases h2 : l.length ≤ 50
      · have h3 : l.length = 50 := by omega
        simp only [h1, h2, if_true, if_false]
        rw [hr, if_pos h3, h3]
      · have h5 : (List.take 49 l).length = 49 := by
          rw [List.length_take]; omega
        have h4 : (List.take 49 l ++ List.drop (l.length - 1) l).length = 50 := by
          rw [List.length_append, h5, List.length_drop]
          omega
        simp only [h1, h2, if_true, if_false]
        rw [hr, if_pos h4, h4, List.take_left' h5]

/-- C18 at the failing input: after the 51 lines `1` to `51`,
`stdoutLastLines` holds the lines `1` to `49` and then `51`; the last 50
lines, `2` to `51`, are something else. -/
theorem copyStdout_drops_newest_kept_line :
    (copyStdout (exLines 51)).stdoutLastLines = exLines 49 ++ ["51"] ∧
    (exLines 51).drop (51 - min 51 50) = (exLines 51).drop 1 ∧
    (copyStdout (exLines 51)).stdoutLastLines ≠ (exLines 51).drop (51 - min 51 50) := by
  decide

/-- The check of the loop compares the true difference of the two instants
with fifteen seconds. -/
theorem timeSub_lt_loopThreshold (t u : Int) :
    timeSub t u < loopThreshold ↔ t - u < 15000000000 := by
  unfold timeSub loopThreshold Second
  omega

/-- Each start passed the check against the entry of `restarts` that was
first at the time, which is the entry at the place of the start in `restarts`
followed by the recorded instants. -/
theorem monitorLoop_starts (rounds : List Round) :
    ∀ (restarts : List Int) (locked : Bool), restarts ≠ [] → ∀ (j : Nat) (c t : Int),
      (startsOf (monitorLoop restarts locked rounds)).get? j = some (c, t) →
      ∃ u, (restarts ++ (startsOf (monitorLoop restarts locked rounds)).map Prod.snd).get? j =
          some u ∧
        15000000000 ≤ c - u := by
  induction rounds with
  | nil => intro restarts locked _ j c t h; simp [monitorLoop, startsOf] at h
  | cons r rest ih =>
    intro restarts locked hne j c t h
    obtain ⟨u0, tl, rfl⟩ := List.exists_cons_of_ne_nil hne
    simp only [monitorLoop, List.headD_cons] at h ⊢
    by_cases hchk : timeSub r.sinceClock u0 < loopThreshold
    · rw [if_pos hchk] at h
      simp [startsOf] at h
    · rw [if_neg hchk] at h ⊢
      have hge : 15000000000 ≤ r.sinceClock - u0 := by
        rw [timeSub_lt_loopThreshold] at hchk
        omega
      by_cases hf : r.childEnd = ChildEnd.fatal
      · rw [if_pos hf] at h
        simp [startsOf] at h
      · rw [if_neg hf] at h ⊢
        by_cases hl : locked = true
        · rw [if_pos hl] at h ⊢
          simp only [startsOf] at h ⊢
          cases j with
          | zero =>
            simp only [List.get?_cons_zero, Option.some.injEq, Prod.mk.injEq] at h
            exact ⟨u0, by simp, by omega⟩
          | succ j => simp at h
        · rw [if_neg hl] at h ⊢
          by_cases he : r.childEnd = ChildEnd.exitErr
          · rw [if_pos he] at h ⊢
            simp only [startsOf] at h ⊢
            cases j with
            | zero =>
              simp only [List.get?_cons_zero, Option.some.injEq, Prod.mk.injEq] at h
              exact ⟨u0, by simp, by omega⟩
            | succ j =>
              simp only [List.get?_cons_succ, List.drop_succ_cons, List.drop_zero] at h
              obtain ⟨u, hu, hle⟩ := ih (tl ++ [r.nowClock]) _ (by simp) j c t h
              refine ⟨u, ?_, hle⟩
              simpa using hu
          · rw [if_neg he] at h ⊢
            simp only [startsOf] at h ⊢
            cases j with
            | zero =>
              simp only [List.get?_cons_zero, Option.some.injEq, Prod.mk.injEq] at h
              exact ⟨u0, by simp, by omega⟩
            | succ j => simp at h

/-- While `restarts` still begins with a zero instant, the clock is at least
fifteen seconds past the zero instant and no `copyStderr` takes the mutex,
children that exit with an error are started one after the other. -/
theorem monitorLoop_first_starts (rounds : List Round) :
    ∀ (m : Nat) (nows : List Int), rounds.length ≤ m + 1 →
      (∀ r ∈ rounds, r.childEnd = ChildEnd.exitErr ∧ 15000000000 ≤ r.sinceClock ∧
        copyStderr r.stderr = false) →
      monitorLoop (List.replicate (m + 1) 0 ++ nows) false rounds =
        rounds.map (fun r => MonitorEvent.Start r.sinceClock r.nowClock) := by
  induction rounds with
  | nil => intro m nows _ _; rfl
  | cons r rest ih =>
    intro m nows hlen h
    obtain ⟨hce, hclock, hcs⟩ := h r (by simp)
    have hchk : ¬ timeSub r.sinceClock 0 < loopThreshold := by
      rw [timeSub_lt_loopThreshold]; omega
    simp only [monitorLoop, List.replicate_succ, List.cons_append, List.headD_cons, hchk,
      if_false, hce, List.map_cons, List.drop_succ_cons, List.drop_zero, hcs]
    simp only [reduceCtorEq, if_false, if_true, Bool.false_eq_true]
    congr 1
    cases rest with
    | nil => simp [monitorLoop]
    | cons r2 rest2 =>
      cases m with
      | zero => simp at hlen
      | succ m =>
        have := ih m (nows ++ [r.nowClock]) (by simpa using hlen)
          (fun x hx => h x (List.mem_cons_of_mem _ hx))
        rw [← this, List.append_assoc]

/-- C19: the check of `monitorMain` is as claimed: it exits with `exitError`
when `restarts[0]` is less than 15 seconds before the clock read by
`time.Since` and goes on to start the child otherwise, so the start number
`j + 6` passed its check at least 15 seconds after the instant recorded for
the start number `j + 1`.  But the first five starts are not always attempted:
once a child has written a line that starts with `panic:` or `fatal error:`
to stderr and the panic log is created, `copyStderr` holds `stdoutMut` for
ever, and the round after starts the next child and then waits for ever in
`stdoutMut.Lock()`.  Five children that panic and exit after 20 seconds each
give two starts and a monitor that hangs; without such a line, up to five
children that exit with an error are all started. -/
theorem monitorMain_blocks_after_panic :
    (∀ (restarts : List Int) (locked : Bool) (r : Round) (rest : List Round),
      (r.sinceClock - restarts.headD 0 < 15000000000 →
        monitorLoop restarts locked (r :: rest) = [MonitorEvent.ExitError]) ∧
      (15000000000 ≤ r.sinceClock - restarts.headD 0 →
        monitorLoop restarts locked (r :: rest) ≠ [MonitorEvent.ExitError] ∧
        (r.childEnd ≠ ChildEnd.fatal →
          (monitorLoop restarts locked (r :: rest)).head? =
            some (MonitorEvent.Start r.sinceClock r.nowClock)))) ∧
    (∀ (rounds : List Round) (j : Nat) (c t c0 t0 : Int),
      (startsOf (monitorMain rounds)).get? (j + 5) = some (c, t) →
      (startsOf (monitorMain rounds)).get? j = some (c0, t0) →
      15000000000 ≤ c - t0) ∧
    (∀ (restarts : List Int) (r1 r2 : Round) (rest : List Round),
      15000000000 ≤ r1.sinceClock - restarts.headD 0 →
      r1.childEnd = ChildEnd.exitErr → copyStderr r1.stderr = true →
      15000000000 ≤ r2.sinceClock - (restarts.drop 1 ++ [r1.nowClock]).headD 0 →
      r2.childEnd ≠ ChildEnd.fatal →
      monitorLoop restarts false (r1 :: r2 :: rest) =
        [MonitorEvent.Start r1.sinceClock r1.nowClock,
          MonitorEvent.Start r2.sinceClock r2.nowClock, MonitorEvent.Blocked]) ∧
    copyStderr exPanic = true ∧
    monitorMain
      [⟨100000000000, 100000000001, ChildEnd.exitErr, exPanic⟩,
       ⟨121000000000, 121000000001, ChildEnd.exitErr, exPanic⟩,
       ⟨142000000000, 142000000001, ChildEnd.exitErr, exPanic⟩,
       ⟨163000000000, 163000000001, ChildEnd.exitErr, exPanic⟩,
       ⟨184000000000, 184000000001, ChildEnd.exitErr, exPanic⟩] =
      [MonitorEvent.Start 100000000000 100000000001,
       MonitorEvent.Start 121000000000 121000000001,
       MonitorEvent.Blocked] ∧
    (∀ rounds : List Round, rounds.length ≤ 5 →
      (∀ r ∈ rounds, r.childEnd = ChildEnd.exitErr ∧ 15000000000 ≤ r.sinceClock ∧
        copyStderr r.stderr = false) →
      monitorMain rounds = rounds.map (fun r => MonitorEvent.Start r.sinceClock r.nowClock)) ∧
    monitorMain
      [⟨100000000000, 100000000001, ChildEnd.exitErr, []⟩,
       ⟨101000000000, 101000000001, ChildEnd.exitErr, []⟩,
       ⟨102000000000, 102000000001, ChildEnd.exitErr, []⟩,
       ⟨103000000000, 103000000001, ChildEnd.exitErr, []⟩,
       ⟨104000000000, 104000000001, ChildEnd.exitErr, []⟩,
       ⟨105000000000, 105000000001, ChildEnd.exitErr, []⟩] =
      [MonitorEvent.Start 100000000000 100000000001,
       MonitorEvent.Start 101000000000 101000000001,
       MonitorEvent.Start 102000000000 102000000001,
       MonitorEvent.Start 103000000000 103000000001,
       MonitorEvent.Start 104000000000 104000000001,
       MonitorEvent.ExitError] := by
  have hp : copyStderr exPanic = true := by decide
  refine ⟨?_, ?_, ?_, hp, by decide, ?_, by decide⟩
  · intro restarts locked r rest
    constructor
    · intro h
      simp only [monitorLoop]
      rw [if_pos ((timeSub_lt_loopThreshold _ _).mpr h)]
    · intro h
      have hchk : ¬ timeSub r.sinceClock (restarts.headD 0) < loopThreshold := by
        rw [timeSub_lt_loopThreshold]; omega
      simp only [monitorLoop]
      rw [if_neg hchk]
      constructor
      · split_ifs <;> simp
      · intro hf
        rw [if_neg hf]
        split_ifs <;> rfl
  · intro rounds j c t c0 t0 h5 h0
    obtain ⟨u, hu, hle⟩ :=
      monitorLoop_starts rounds (List.replicate 5 0) false (by simp) (j + 5) c t h5
    have hu2 : (List.replicate 5 (0 : Int) ++
        (startsOf (monitorLoop (List.replicate 5 0) false rounds)).map Prod.snd).get? (j + 5) =
        some t0 := by
      rw [List.get?_eq_getElem?, List.getElem?_append_right (by simp)]
      simp only [List.length_replicate, Nat.add_sub_cancel, List.getElem?_map]
      unfold monitorMain at h0
      rw [List.get?_eq_getElem?] at h0
      rw [h0]
      rfl
    rw [hu2] at hu
    have : t0 = u := Option.some.inj hu
    omega
  · intro restarts r1 r2 rest h1 he hl h2 hf
    have hchk1 : ¬ timeSub r1.sinceClock (restarts.headD 0) < loopThreshold := by
      rw [timeSub_lt_loopThreshold]; omega
    have hchk2 : ¬ timeSub r2.sinceClock ((restarts.drop 1 ++ [r1.nowClock]).headD 0) <
        loopThreshold := by
      rw [timeSub_lt_loopThreshold]; omega
    have hnf : r1.childEnd ≠ ChildEnd.fatal := by rw [he]; decide
    simp only [monitorLoop]
    rw [if_neg hchk1, if_neg hnf, if_neg (by decide), if_pos he, hl, if_neg hchk2, if_neg hf,
      if_pos rfl]
  · intro rounds hlen h
    exact monitorLoop_first_starts rounds 4 [] (by simpa using hlen) h

/-! ## `getFreePort` -/

/-- C20: `getFreePort` listens on the given ports in order and returns,
without error, the first port on which listening succeeds, having tried only
the ports before it, all of which failed; if listening fails on every given
port it listens on port 0 of the host and returns the port the system chose
without error, or the port 0 and the error if that attempt fails too.  On a
host where only 8082 is free it returns 8082 from 8080 to 8083, and the port
of the system when given 8080 alone. -/
theorem getFreePort_first_free {σ : Type} (L : Listener σ) (host : String) (ports : List Int) :
    (∀ w : σ,
    (∃ pre p post val, ports = pre ++ p :: post ∧ allListensFail L host w pre ∧
      (L.Listen (afterListens L host w pre) (portAddr host p)).2 = .ok val ∧
      getFreePort L host w ports =
        ((p, none), pre.map (fun q => (portAddr host q, false)) ++ [(portAddr host p, true)])) ∨
    (allListensFail L host w ports ∧ ∃ q,
      (L.Listen (afterListens L host w ports) (host ++ ":0")).2 = .ok q ∧
      getFreePort L host w ports =
        ((q, none), ports.map (fun q => (portAddr host q, false)) ++ [(host ++ ":0", true)])) ∨
    (allListensFail L host w ports ∧ ∃ err,
      (L.Listen (afterListens L host w ports) (host ++ ":0")).2 = .error err ∧
      getFreePort L host w ports =
        ((0, some err),
          ports.map (fun q => (portAddr host q, false)) ++ [(host ++ ":0", false)]))) ∧
    getFreePort exListener "127.0.0.1" 0 [8080, 8081, 8082, 8083] =
      ((8082, none), [("127.0.0.1:8080", false), ("127.0.0.1:8081", false),
        ("127.0.0.1:8082", true)]) ∧
    getFreePort exListener "127.0.0.1" 0 [8080] =
      ((49152, none), [("127.0.0.1:8080", false), ("127.0.0.1:0", true)]) := by
  refine ⟨?_, by decide, by decide⟩
  induction ports with
  | nil =>
    intro w
    right
    cases h : (L.Listen w (host ++ ":0")).2 with
    | error err =>
      right
      exact ⟨trivial, err, h, by simp [getFreePort, h]⟩
    | ok q =>
      left
      exact ⟨trivial, q, h, by simp [getFreePort, h]⟩
  | cons p rest ih =>
    intro w
    cases h : (L.Listen w (portAddr host p)).2 with
    | ok val =>
      left
      refine ⟨[], p, rest, val, rfl, trivial, h, ?_⟩
      unfold portAddr at h
      simp [getFreePort, h, portAddr]
    | error err =>
      have hf : getFreePort L host w (p :: rest) =
          ((getFreePort L host (L.Listen w (portAddr host p)).1 rest).1,
            (portAddr host p, false) ::
              (getFreePort L host (L.Listen w (portAddr host p)).1 rest).2) := by
        unfold portAddr at h ⊢
        simp [getFreePort, h]
      rcases ih (L.Listen w (portAddr host p)).1 with
        ⟨pre, p1, post, val, hp, hfail, hok, hres⟩ | ⟨hfail, q, hok, hres⟩ |
        ⟨hfail, e, hok, hres⟩
      · left
        refine ⟨p :: pre, p1, post, val, by rw [hp]; rfl, ⟨⟨err, h⟩, hfail⟩, hok, ?_⟩
        rw [hf, hres]
        rfl
      · right; left
        refine ⟨⟨⟨err, h⟩, hfail⟩, q, hok, ?_⟩
        rw [hf, hres]
        rfl
      · right; right
        refine ⟨⟨⟨err, h⟩, hfail⟩, e, hok, ?_⟩
        rw [hf, hres]
        rfl

/-! ## `setupExternalPort` -/

/-- The ports tried are the first ports the source yields. -/
theorem setupExternalPortLoop_candidates {ρ σ : Type} (R : RandSource ρ) (G : IGD σ)
    (port lease : Int) (n : Nat) :
    ∀ (rnd : ρ) (w : σ),
      (setupExternalPortLoop R G port lease n rnd w).2.map Prod.fst <+: candidatePorts R n rnd := by
  induction n with
  | zero => intro rnd w; exact List.prefix_refl _
  | succ n ih =>
    intro rnd w
    simp only [setupExternalPortLoop, candidatePorts]
    split
    · simp only [List.map_cons, List.map_nil]
      exact List.prefix_cons_inj _ |>.mpr (List.nil_prefix)
    · simp only [List.map_cons]
      exact (List.prefix_cons_inj _).mpr (ih _ _)

/-- Two runs from the same state of the source with the same outcomes of the
mappings try the same ports and return the same port. -/
theorem setupExternalPortLoop_same {ρ σ τ : Type} (R : RandSource ρ) (G1 : IGD σ) (G2 : IGD τ)
    (port1 lease1 port2 lease2 : Int) (n : Nat) :
    ∀ (rnd : ρ) (w1 : σ) (w2 : τ),
      (setupExternalPortLoop R G1 port1 lease1 n rnd w1).2.map Prod.snd =
        (setupExternalPortLoop R G2 port2 lease2 n rnd w2).2.map Prod.snd →
      setupExternalPortLoop R G1 port1 lease1 n rnd w1 =
        setupExternalPortLoop R G2 port2 lease2 n rnd w2 := by
  induction n with
  | zero => intro rnd w1 w2 _; rfl
  | succ n ih =>
    intro rnd w1 w2 h
    simp only [setupExternalPortLoop] at h ⊢
    by_cases h1 : (G1.AddPortMapping w1 (externalCandidate (R.Int63 rnd).2) port1 lease1).2 = true
    · by_cases h2 :
          (G2.AddPortMapping w2 (externalCandidate (R.Int63 rnd).2) port2 lease2).2 = true
      · rw [if_pos h1, if_pos h2]
      · rw [if_pos h1, if_neg h2] at h
        simp at h
    · by_cases h2 :
          (G2.AddPortMapping w2 (externalCandidate (R.Int63 rnd).2) port2 lease2).2 = true
      · rw [if_neg h1, if_pos h2] at h
        simp at h
      · rw [if_neg h1, if_neg h2] at h ⊢
        simp only [List.map_cons, List.cons.injEq, true_and] at h
        rw [ih _ _ _ h]

/-- C21: the external ports `setupExternalPort` tries are the first ports of
the sequence that the source seeded with `certSeed` of the certificate bytes
yields, a sequence in which neither the gateway nor the internal port nor the
lease has a part; two runs with the same certificate and the same outcomes of
the mappings try the same ports and return the same result, whatever their
gateways, internal ports and leases; and the seed is the first eight bytes of
the hash of the certificate, big-endian, as an `int64`. -/
theorem setupExternalPort_repeatable {ρ σ τ : Type} (R : RandSource ρ) (G1 : IGD σ)
    (G2 : IGD τ) (sha256 : List Nat → List Nat) (cert : List Nat)
    (lease1 lease2 port1 port2 : Int) (w1 : σ) (w2 : τ) :
    ((setupExternalPort R G1 sha256 cert lease1 port1 w1).2.map Prod.fst <+:
      candidatePorts R 10 (R.NewSource (certSeed sha256 cert))) ∧
    ((setupExternalPort R G1 sha256 cert lease1 port1 w1).2.map Prod.snd =
        (setupExternalPort R G2 sha256 cert lease2 port2 w2).2.map Prod.snd →
      setupExternalPort R G1 sha256 cert lease1 port1 w1 =
        setupExternalPort R G2 sha256 cert lease2 port2 w2) ∧
    certSeed sha256 cert =
      wrapInt64 (Int.ofNat
        (((sha256 cert).take 8).foldl (fun (acc x : Nat) => acc * 256 + x % 256) (0 : Nat))) ∧
    certSeed exHash [255, 255, 255, 255, 255, 255, 255, 255] = -1 ∧
    setupExternalPort exRand exIGD exHash [1, 2, 3] 0 22000 0 =
      (31664, [(15826, false), (23745, false), (31664, true)]) := by
  have hex : setupExternalPort exRand exIGD exHash [1, 2, 3] 0 22000 0 =
      (31664, [(15826, false), (23745, false), (31664, true)]) := by decide
  have hseed : certSeed exHash [255, 255, 255, 255, 255, 255, 255, 255] = -1 := by decide
  refine ⟨?_, ?_, rfl, hseed, hex⟩
  · exact setupExternalPortLoop_candidates R G1 port1 _ 10 _ w1
  · intro h
    exact setupExternalPortLoop_same R G1 G2 port1 _ port2 _ 10 _ w1 w2 h

/-! ## `syncthingMain`: the start of the repositories -/

/-- C22: for every configured repository that is not invalid, the start-up
loop calls `StartRepoRW` if and only if the repository is not read-only and
`StartRepoRO` if and only if it is read-only, makes exactly one call and so
never both; and these calls, entry by entry, are the end of the trace of
start-up. -/
theorem startRepo_read_only_mode (ParallelRequests : Int) (repo : RepositoryConfiguration)
    (h : repo.Invalid = "") :
    ((∃ n, StartEffect.StartRepoRW repo.ID n ∈ startRepoBody ParallelRequests repo) ↔
      repo.ReadOnly = false) ∧
    (StartEffect.StartRepoRO repo.ID ∈ startRepoBody ParallelRequests repo ↔
      repo.ReadOnly = true) ∧
    (startRepoBody ParallelRequests repo =
      if repo.ReadOnly then [StartEffect.StartRepoRO repo.ID]
      else [StartEffect.StartRepoRW repo.ID ParallelRequests]) ∧
    ¬ ((∃ n, StartEffect.StartRepoRW repo.ID n ∈ startRepoBody ParallelRequests repo) ∧
      StartEffect.StartRepoRO repo.ID ∈ startRepoBody ParallelRequests repo) ∧
    (∀ {σ : Type} (S : Sys σ) (myID : NodeID) (w : σ)
      (cfgRepositories : List RepositoryConfiguration),
      ∃ before, (syncthingMainRepos S myID ParallelRequests w cfgRepositories).2 =
        before ++ [StartEffect.CleanRepos, StartEffect.ScanRepos] ++
          (syncthingMainRepos S myID ParallelRequests w cfgRepositories).1.flatMap
            (startRepoBody ParallelRequests)) := by
  have hb : startRepoBody ParallelRequests repo =
      if repo.ReadOnly then [StartEffect.StartRepoRO repo.ID]
      else [StartEffect.StartRepoRW repo.ID ParallelRequests] := by
    simp [startRepoBody, h]
  refine ⟨?_, ?_, hb, ?_, ?_⟩
  · rw [hb]
    cases repo.ReadOnly <;> simp
  · rw [hb]
    cases repo.ReadOnly <;> simp
  · rw [hb]
    cases repo.ReadOnly <;> simp
  · intro σ S myID w cfgRepositories
    exact ⟨_, rfl⟩

theorem startRepo_read_only_mode_witness :
    (⟨"photos", "/data/sync", [1, 2], true, ""⟩ : RepositoryConfiguration).Invalid = "" ∧
    startRepoBody 16 ⟨"photos", "/data/sync", [1, 2], true, ""⟩ =
      [StartEffect.StartRepoRO "photos"] ∧
    startRepoBody 16 ⟨"music", "/data/sync", [1, 2], false, ""⟩ =
      [StartEffect.StartRepoRW "music" 16] :=
  ⟨rfl,
    (startRepo_read_only_mode 16 ⟨"photos", "/data/sync", [1, 2], true, ""⟩ rfl).2.2.1,
    (startRepo_read_only_mode 16 ⟨"music", "/data/sync", [1, 2], false, ""⟩ rfl).2.2.1⟩

/-! ## `syncthingMain`: the repositories dropped from the database -/

theorem lookup_RepoMap_isSome (cfgRepositories : List RepositoryConfiguration) (id : String) :
    ((RepoMap cfgRepositories).lookup id).isSome = true ↔ ∃ r ∈ cfgRepositories, r.ID = id := by
  rw [List.lookup_isSome_iff]
  unfold RepoMap
  constructor
  · rintro ⟨p, hp, he⟩
    obtain ⟨r, hr, rfl⟩ := List.mem_map.mp hp
    exact ⟨r, hr, (beq_iff_eq.mp he).symm⟩
  · rintro ⟨r, hr, he⟩
    exact ⟨(r.ID, r), List.mem_map_of_mem _ hr, beq_iff_eq.mpr he.symm⟩

theorem dropRepos_eq_filter (repoMap : List (String × RepositoryConfiguration))
    (listed : List String) :
    dropRepos repoMap listed = listed.filter (fun repo => !(repoMap.lookup repo).isSome) := by
  induction listed with
  | nil => rfl
  | cons repo rest ih =>
    simp only [dropRepos, List.filter_cons, ih]
    cases (repoMap.lookup repo).isSome <;> simp

/-- C23: `DropRepo` is called for exactly the repository IDs that
`files.ListRepos(db)` lists and that are not keys of the repository map of the
configuration, in the order listed; with the map of the configured
repositories by ID, these are the listed IDs of no configured repository, and
no configured repository is dropped. -/
theorem dropRepos_exactly_unconfigured (cfgRepositories : List RepositoryConfiguration)
    (repoMap : List (String × RepositoryConfiguration)) (listed : List String) :
    dropRepos repoMap listed = listed.filter (fun repo => !(repoMap.lookup repo).isSome) ∧
    (∀ id, id ∈ dropRepos repoMap listed ↔ id ∈ listed ∧ repoMap.lookup id = none) ∧
    (∀ id, id ∈ dropRepos (RepoMap cfgRepositories) listed ↔
      id ∈ listed ∧ ∀ r ∈ cfgRepositories, r.ID ≠ id) ∧
    (∀ r ∈ cfgRepositories, r.ID ∉ dropRepos (RepoMap cfgRepositories) listed) ∧
    dropRepos (RepoMap [⟨"default", "/data/sync", [1], false, ""⟩]) ["default", "old", "older"] =
      ["old", "older"] := by
  have hmem : ∀ (m : List (String × RepositoryConfiguration)) (id : String),
      id ∈ dropRepos m listed ↔ id ∈ listed ∧ m.lookup id = none := by
    intro m id
    rw [dropRepos_eq_filter, List.mem_filter]
    cases h : m.lookup id <;> simp
  have hcfg : ∀ id, id ∈ dropRepos (RepoMap cfgRepositories) listed ↔
      id ∈ listed ∧ ∀ r ∈ cfgRepositories, r.ID ≠ id := by
    intro id
    rw [hmem]
    have := lookup_RepoMap_isSome cfgRepositories id
    constructor
    · rintro ⟨h1, h2⟩
      refine ⟨h1, fun r hr he => ?_⟩
      have h3 := this.mpr ⟨r, hr, he⟩
      rw [h2] at h3
      exact Bool.noConfusion h3
    · rintro ⟨h1, h2⟩
      refine ⟨h1, ?_⟩
      cases h : (RepoMap cfgRepositories).lookup id with
      | none => rfl
      | some v =>
        rw [h] at this
        obtain ⟨r, hr, he⟩ := this.mp rfl
        exact absurd he (h2 r hr)
  refine ⟨dropRepos_eq_filter repoMap listed, hmem repoMap, hcfg, ?_, by decide⟩
  intro r hr hmem2
  exact ((hcfg r.ID).mp hmem2).2 r hr rfl

/-! ## GUI: the requests forwarded -/

/-- C24: `csrfMiddleware` hands a request to the next handler if and only if
the configured API key is not empty and the `X-API-Key` header equals it, or
the path does not start with the prefix, or the method is `GET`, or the
`X-CSRF-Token` header is a token of `csrfTokens`; in every other case the
whole answer is the error 403 and `csrfTokens` is unchanged; and with an
empty configured API key the first of the four never lets a request
through. -/
theorem csrfMiddleware_forwards_iff (urlPrefix apiKey random : String)
    (csrfTokens : List String) (r : Request) :
    (HttpEffect.Next ∈ (csrfMiddleware urlPrefix apiKey random csrfTokens r).2 ↔
      ((apiKey ≠ "" ∧ r.Header "X-API-Key" = apiKey) ∨
        HasPrefix r.Path.data urlPrefix.data = false ∨
        r.Method = "GET" ∨
        r.Header "X-CSRF-Token" ∈ csrfTokens)) ∧
    (HttpEffect.Next ∉ (csrfMiddleware urlPrefix apiKey random csrfTokens r).2 →
      csrfMiddleware urlPrefix apiKey random csrfTokens r =
        (csrfTokens, [HttpEffect.Error "CSRF Error" 403])) ∧
    (apiKey = "" →
      (HttpEffect.Next ∈ (csrfMiddleware urlPrefix apiKey random csrfTokens r).2 ↔
        (HasPrefix r.Path.data urlPrefix.data = false ∨
          r.Method = "GET" ∨
          r.Header "X-CSRF-Token" ∈ csrfTokens))) ∧
    (csrfMiddleware "/rest" "" "t1" ["t0"] (exRequest "/rest/config" "POST" "" "bad" none) =
      (["t0"], [HttpEffect.Error "CSRF Error" 403])) := by
  have key : (HttpEffect.Next ∈ (csrfMiddleware urlPrefix apiKey random csrfTokens r).2 ↔
      ((apiKey ≠ "" ∧ r.Header "X-API-Key" = apiKey) ∨
        HasPrefix r.Path.data urlPrefix.data = false ∨
        r.Method = "GET" ∨
        r.Header "X-CSRF-Token" ∈ csrfTokens)) ∧
      (HttpEffect.Next ∉ (csrfMiddleware urlPrefix apiKey random csrfTokens r).2 →
      csrfMiddleware urlPrefix apiKey random csrfTokens r =
        (csrfTokens, [HttpEffect.Error "CSRF Error" 403])) := by
    unfold csrfMiddleware
    by_cases h1 : apiKey ≠ "" ∧ r.Header "X-API-Key" = apiKey
    · rw [if_pos h1]
      exact ⟨⟨fun _ => Or.inl h1, fun _ => List.mem_singleton.mpr rfl⟩,
        fun h => absurd (List.mem_singleton.mpr rfl) h⟩
    · rw [if_neg h1]
      by_cases h2 : HasPrefix r.Path.data urlPrefix.data = true
      · rw [if_neg (not_not.mpr h2)]
        by_cases h3 : r.Method = "GET"
        · rw [if_pos h3]
          exact ⟨⟨fun _ => Or.inr (Or.inr (Or.inl h3)), fun _ => List.mem_singleton.mpr rfl⟩,
            fun h => absurd (List.mem_singleton.mpr rfl) h⟩
        · rw [if_neg h3]
          by_cases h4 : validCsrfToken csrfTokens (r.Header "X-CSRF-Token") = true
          · rw [if_neg (not_not.mpr h4)]
            exact ⟨⟨fun _ => Or.inr (Or.inr (Or.inr ((validCsrfToken_iff _ _).mp h4))),
              fun _ => List.mem_singleton.mpr rfl⟩,
              fun h => absurd (List.mem_singleton.mpr rfl) h⟩
          · rw [if_pos h4]
            refine ⟨⟨fun h => ?_, fun h => ?_⟩, fun _ => rfl⟩
            · simp at h
            · rcases h with h | h | h | h
              · exact absurd h h1
              · rw [h2] at h
                exact Bool.noConfusion h
              · exact absurd h h3
              · exact absurd ((validCsrfToken_iff _ _).mpr h) h4
      · rw [if_pos h2]
        have hf : HasPrefix r.Path.data urlPrefix.data = false := by
          cases h : HasPrefix r.Path.data urlPrefix.data
          · rfl
          · exact absurd h h2
        have hn : HttpEffect.Next ∈ (match r.Cookie "CSRF-Token" with
            | some value =>
              if validCsrfToken csrfTokens value then (csrfTokens, [HttpEffect.Next])
              else
                ((newCsrfToken csrfTokens random).1,
                  [HttpEffect.SetCookie "CSRF-Token" (newCsrfToken csrfTokens random).2,
                    HttpEffect.Next])
            | none =>
              ((newCsrfToken csrfTokens random).1,
                [HttpEffect.SetCookie "CSRF-Token" (newCsrfToken csrfTokens random).2,
                  HttpEffect.Next])).2 := by
          split
          · split <;> simp
          · simp
        exact ⟨⟨fun _ => Or.inr (Or.inl hf), fun _ => hn⟩, fun h => absurd hn h⟩
  refine ⟨key.1, key.2, ?_, by decide⟩
  intro he
  rw [key.1]
  constructor
  · rintro (h | h)
    · exact absurd he h.1
    · exact h
  · exact Or.inr

/-! ## `dialTLS`: the candidates of a node -/

/-- The rounds of `dialTLS` one after the other: the trace of `k + more`
rounds is the trace of `k` rounds and then the trace of `more` rounds from the
world and the delay the `k` rounds left. -/
theorem dialTLSLoop_add {σ : Type} (N : Net σ) (cfgNodes : List NodeConfiguration)
    (myID : NodeID) (ReconnectIntervalS : Int) (more : Nat) :
    ∀ (k : Nat) (w : σ) (delay : Int),
      dialTLSLoop N cfgNodes myID ReconnectIntervalS (k + more) w delay =
        dialTLSLoop N cfgNodes myID ReconnectIntervalS k w delay ++
          dialTLSLoop N cfgNodes myID ReconnectIntervalS more
            (dialTLSWorld N cfgNodes myID ReconnectIntervalS k w delay)
            ((nextDelay ReconnectIntervalS)^[k] delay) := by
  intro k
  induction k with
  | zero =>
    intro w delay
    rw [Nat.zero_add]
    rfl
  | succ k ih =>
    intro w delay
    rw [Nat.add_right_comm]
    simp only [dialTLSLoop, dialTLSWorld, Function.iterate_succ, Function.comp_apply]
    rw [ih]
    simp only [List.append_assoc, List.cons_append]

/-- The loop over the nodes does the body for the first node and goes on with
the others from the world the body left. -/
theorem dialTLSNodes_cons {σ : Type} (N : Net σ) (myID : NodeID) (w : σ)
    (nodeCfg : NodeConfiguration) (rest : List NodeConfiguration) :
    dialTLSNodes N myID w (nodeCfg :: rest) =
      ((dialTLSNodes N myID (dialTLSNode N myID w nodeCfg).1 rest).1,
        (dialTLSNode N myID w nodeCfg).2 ++
          (dialTLSNodes N myID (dialTLSNode N myID w nodeCfg).1 rest).2) := by
  simp only [dialTLSNodes, dialTLSNode]
  split_ifs <;> simp

theorem dialTLSNodes_append {σ : Type} (N : Net σ) (myID : NodeID)
    (pre post : List NodeConfiguration) :
    ∀ w : σ, dialTLSNodes N myID w (pre ++ post) =
      ((dialTLSNodes N myID (dialTLSNodes N myID w pre).1 post).1,
        (dialTLSNodes N myID w pre).2 ++
          (dialTLSNodes N myID (dialTLSNodes N myID w pre).1 post).2) := by
  induction pre with
  | nil => intro w; simp [dialTLSNodes]
  | cons n pre ih =>
    intro w
    rw [List.cons_append, dialTLSNodes_cons, ih, dialTLSNodes_cons]
    simp only [List.append_assoc]

/-- The loop over the addresses takes the first address, or the answer of the
lookup in its place, and goes on with the others. -/
theorem dialTLSAddrs_cons {σ : Type} (N : Net σ) (nodeID : NodeID) (w : σ) (addr : String)
    (rest : List String) :
    dialTLSAddrs N nodeID w (addr :: rest) =
      if addr = "dynamic" then
        ((dialTLSAddrs N nodeID (discovered N w nodeID).1 rest).1,
          (discovered N w nodeID).2 ++ (dialTLSAddrs N nodeID (discovered N w nodeID).1 rest).2)
      else
        ((dialTLSAddrs N nodeID w rest).1, addr :: (dialTLSAddrs N nodeID w rest).2) := by
  rw [dialTLSAddrs]
  unfold discovered
  by_cases hd : addr = "dynamic"
  · rw [if_pos hd, if_pos hd]
    cases N.discoverer with
    | none => rfl
    | some Lookup => rfl
  · rw [if_neg hd, if_neg hd]

theorem dialTLSAddrs_append {σ : Type} (N : Net σ) (nodeID : NodeID) (pre post : List String) :
    ∀ w : σ, dialTLSAddrs N nodeID w (pre ++ post) =
      ((dialTLSAddrs N nodeID (dialTLSAddrs N nodeID w pre).1 post).1,
        (dialTLSAddrs N nodeID w pre).2 ++
          (dialTLSAddrs N nodeID (dialTLSAddrs N nodeID w pre).1 post).2) := by
  induction pre with
  | nil => intro w; simp [dialTLSAddrs]
  | cons a pre ih =>
    intro w
    rw [List.cons_append, dialTLSAddrs_cons, dialTLSAddrs_cons]
    by_cases hd : a = "dynamic"
    · rw [if_pos hd, if_pos hd, ih]
      simp only [List.append_assoc]
    · rw [if_neg hd, if_neg hd, ih]
      simp only [List.cons_append]

/-- The candidates of a node when every lookup for it answers `look`: every
static address, and the answer in place of each `dynamic`. -/
theorem dialTLSAddrs_flatMap {σ : Type} (N : Net σ) (nodeID : NodeID) (look : List String)
    (hl : ∀ w, (discovered N w nodeID).2 = look) (addrs : List String) :
    ∀ w : σ, (dialTLSAddrs N nodeID w addrs).2 =
      addrs.flatMap (fun addr => if addr = "dynamic" then look else [addr]) := by
  induction addrs with
  | nil => intro w; rfl
  | cons addr rest ih =>
    intro w
    rw [List.flatMap_cons, dialTLSAddrs_cons]
    by_cases hd : addr = "dynamic"
    · rw [if_pos hd, if_pos hd]
      simp only []
      rw [ih, hl]
    · rw [if_neg hd, if_neg hd]
      simp only []
      rw [ih]
      rfl

/-- The dial attempts on the candidates of a node: all fail and all are
tried, or the first that yields a link ends them. -/
theorem dialTLSDial_cases {σ : Type} (N : Net σ) (nodeID : NodeID) (cands : List String) :
    ∀ w : σ,
      (allDialsFail N w cands ∧
        (dialTLSDial N nodeID w cands).2 =
          cands.map (fun addr => DialEffect.Dial nodeID (String.mk (dialAddr addr.data)))) ∨
      (∃ pre addr post tc, cands = pre ++ addr :: post ∧ allDialsFail N w pre ∧
        (N.Dial (afterDials N w pre) (String.mk (dialAddr addr.data))).2 = some tc ∧
        (dialTLSDial N nodeID w cands).2 =
          pre.map (fun addr => DialEffect.Dial nodeID (String.mk (dialAddr addr.data))) ++
            [DialEffect.Dial nodeID (String.mk (dialAddr addr.data)), DialEffect.Send tc]) := by
  induction cands with
  | nil => intro w; exact Or.inl ⟨trivial, rfl⟩
  | cons addr rest ih =>
    intro w
    cases hd : (N.Dial w (String.mk (dialAddr addr.data))).2 with
    | some tc =>
      refine Or.inr ⟨[], addr, rest, tc, rfl, trivial, hd, ?_⟩
      simp only [dialTLSDial, hd]
      rfl
    | none =>
      have hstep : (dialTLSDial N nodeID w (addr :: rest)).2 =
          DialEffect.Dial nodeID (String.mk (dialAddr addr.data)) ::
            (dialTLSDial N nodeID (N.Dial w (String.mk (dialAddr addr.data))).1 rest).2 := by
        simp only [dialTLSDial, hd]
      rcases ih (N.Dial w (String.mk (dialAddr addr.data))).1 with
        ⟨hf, ht⟩ | ⟨pre, a, post, tc, hc, hf, hs, ht⟩
      · refine Or.inl ⟨⟨hd, hf⟩, ?_⟩
        rw [hstep, ht]
        rfl
      · refine Or.inr ⟨addr :: pre, a, post, tc, ?_, ⟨hd, hf⟩, hs, ?_⟩
        · rw [hc]; rfl
        · rw [hstep, ht]
          rfl

/-- C25: every round of `dialTLS` is one pass over all the configured nodes
in order and then the sleep; in the pass, each node in turn gets its segment:
nothing for the local node and for a connected node, and otherwise the dial
attempts on its candidates; the candidates are the configured addresses in
order, each static address itself and, in place of each `dynamic`, the answer
of the lookup made at that point (nothing without a discoverer), so with a
lookup that answers `look` every time they are the addresses with `look`
spliced in; and the attempts go through the candidates in order, each at the
address `dialAddr` makes of it, and end with the first that yields a link,
which is sent on, or go through all of them when none does. -/
theorem dialTLS_candidates_in_order {σ : Type} (N : Net σ)
    (cfgNodes : List NodeConfiguration) (myID : NodeID) (ReconnectIntervalS : Int) (w : σ) :
    (∀ k more : Nat, ∃ delay after,
      dialTLS N cfgNodes myID ReconnectIntervalS (k + (more + 1)) w =
        dialTLS N cfgNodes myID ReconnectIntervalS k w ++
          (dialTLSNodes N myID
            (dialTLSWorld N cfgNodes myID ReconnectIntervalS k w (1 * Second)) cfgNodes).2 ++
          DialEffect.Sleep delay :: after) ∧
    (∀ (w0 : σ) (pre post : List NodeConfiguration) (nodeCfg : NodeConfiguration),
      cfgNodes = pre ++ nodeCfg :: post →
      (dialTLSNodes N myID w0 cfgNodes).2 =
        (dialTLSNodes N myID w0 pre).2 ++
          (dialTLSNode N myID (dialTLSNodes N myID w0 pre).1 nodeCfg).2 ++
          (dialTLSNodes N myID
            (dialTLSNode N myID (dialTLSNodes N myID w0 pre).1 nodeCfg).1 post).2) ∧
    (∀ (w1 : σ) (nodeCfg : NodeConfiguration),
      (nodeCfg.NodeID = myID → dialTLSNode N myID w1 nodeCfg = (w1, [])) ∧
      (nodeCfg.NodeID ≠ myID → (N.ConnectedTo w1 nodeCfg.NodeID).2 = true →
        (dialTLSNode N myID w1 nodeCfg).2 = []) ∧
      (nodeCfg.NodeID ≠ myID → (N.ConnectedTo w1 nodeCfg.NodeID).2 = false →
        (dialTLSNode N myID w1 nodeCfg).2 =
          (dialTLSDial N nodeCfg.NodeID
            (dialTLSAddrs N nodeCfg.NodeID (N.ConnectedTo w1 nodeCfg.NodeID).1
              nodeCfg.Addresses).1
            (dialTLSAddrs N nodeCfg.NodeID (N.ConnectedTo w1 nodeCfg.NodeID).1
              nodeCfg.Addresses).2).2)) ∧
    (∀ (id : NodeID) (w1 : σ) (pre post : List String) (addr : String),
      (addr ≠ "dynamic" →
        (dialTLSAddrs N id w1 (pre ++ addr :: post)).2 =
          (dialTLSAddrs N id w1 pre).2 ++ addr ::
            (dialTLSAddrs N id (dialTLSAddrs N id w1 pre).1 post).2) ∧
      (dialTLSAddrs N id w1 (pre ++ "dynamic" :: post)).2 =
        (dialTLSAddrs N id w1 pre).2 ++
          (discovered N (dialTLSAddrs N id w1 pre).1 id).2 ++
          (dialTLSAddrs N id (discovered N (dialTLSAddrs N id w1 pre).1 id).1 post).2) ∧
    (∀ (id : NodeID) (w1 : σ),
      (N.discoverer = none → discovered N w1 id = (w1, [])) ∧
      (∀ Lookup, N.discoverer = some Lookup → discovered N w1 id = Lookup w1 id)) ∧
    (∀ (id : NodeID) (look : List String), (∀ w1, (discovered N w1 id).2 = look) →
      ∀ (w1 : σ) (addrs : List String),
        (dialTLSAddrs N id w1 addrs).2 =
          addrs.flatMap (fun addr => if addr = "dynamic" then look else [addr])) ∧
    (∀ (id : NodeID) (w1 : σ) (cands : List String),
      (allDialsFail N w1 cands ∧
        (dialTLSDial N id w1 cands).2 =
          cands.map (fun addr => DialEffect.Dial id (String.mk (dialAddr addr.data)))) ∨
      (∃ pre addr post tc, cands = pre ++ addr :: post ∧ allDialsFail N w1 pre ∧
        (N.Dial (afterDials N w1 pre) (String.mk (dialAddr addr.data))).2 = some tc ∧
        (dialTLSDial N id w1 cands).2 =
          pre.map (fun addr => DialEffect.Dial id (String.mk (dialAddr addr.data))) ++
            [DialEffect.Dial id (String.mk (dialAddr addr.data)), DialEffect.Send tc])) ∧
    dialTLS exNetDiscovery exNodesDiscovery 1 60 2 0 =
      [DialEffect.Dial 2 "10.0.0.5:22000", DialEffect.Dial 2 "10.0.0.7:22000",
        DialEffect.Dial 2 "10.0.0.8:22000",
        DialEffect.Send ⟨2, [⟨[2]⟩], "10.0.0.1:50000", "10.0.0.8:22000"⟩,
        DialEffect.Sleep 1000000000,
        DialEffect.Dial 2 "10.0.0.5:22000", DialEffect.Dial 2 "10.0.0.8:22000",
        DialEffect.Send ⟨4, [⟨[2]⟩], "10.0.0.1:50000", "10.0.0.8:22000"⟩,
        DialEffect.Sleep 2000000000] := by
  have hex : dialTLS exNetDiscovery exNodesDiscovery 1 60 2 0 =
      [DialEffect.Dial 2 "10.0.0.5:22000", DialEffect.Dial 2 "10.0.0.7:22000",
        DialEffect.Dial 2 "10.0.0.8:22000",
        DialEffect.Send ⟨2, [⟨[2]⟩], "10.0.0.1:50000", "10.0.0.8:22000"⟩,
        DialEffect.Sleep 1000000000,
        DialEffect.Dial 2 "10.0.0.5:22000", DialEffect.Dial 2 "10.0.0.8:22000",
        DialEffect.Send ⟨4, [⟨[2]⟩], "10.0.0.1:50000", "10.0.0.8:22000"⟩,
        DialEffect.Sleep 2000000000] := by decide
  refine ⟨?_, ?_, ?_, ?_, ?_, ?_, ?_, hex⟩
  · intro k more
    refine ⟨(nextDelay ReconnectIntervalS)^[k] (1 * Second),
      dialTLSLoop N cfgNodes myID ReconnectIntervalS more
        (N.Sleep (dialTLSNodes N myID
          (dialTLSWorld N cfgNodes myID ReconnectIntervalS k w (1 * Second)) cfgNodes).1
          ((nextDelay ReconnectIntervalS)^[k] (1 * Second)))
        (nextDelay ReconnectIntervalS ((nextDelay ReconnectIntervalS)^[k] (1 * Second))), ?_⟩
    unfold dialTLS
    rw [dialTLSLoop_add, Nat.add_comm more 1]
    simp only [dialTLSLoop, Nat.add_comm 1 more, List.append_assoc]
  · intro w0 pre post nodeCfg h
    rw [h, dialTLSNodes_append, dialTLSNodes_cons]
    simp only [List.append_assoc]
  · intro w1 nodeCfg
    refine ⟨?_, ?_, ?_⟩
    · intro h
      unfold dialTLSNode
      rw [if_pos h]
    · intro h hc
      unfold dialTLSNode
      rw [if_neg h, if_pos hc]
    · intro h hc
      unfold dialTLSNode
      rw [if_neg h, if_neg (by rw [hc]; exact Bool.noConfusion)]
  · intro id w1 pre post addr
    constructor
    · intro hd
      rw [dialTLSAddrs_append, dialTLSAddrs_cons, if_neg hd]
    · rw [dialTLSAddrs_append, dialTLSAddrs_cons, if_pos rfl]
      simp only [List.append_assoc]
  · intro id w1
    constructor
    · intro h
      unfold discovered
      rw [h]
    · intro Lookup h
      unfold discovered
      rw [h]
  · intro id look hl w1 addrs
    exact dialTLSAddrs_flatMap N id look hl addrs w1
  · intro id w1 cands
    exact dialTLSDial_cases N id cands w1

/-! ## GUI: the token store -/

theorem newCsrfToken_eq_drop (csrfTokens : List String) (random : String) :
    (newCsrfToken csrfTokens random).1 =
      (csrfTokens ++ [random]).drop ((csrfTokens ++ [random]).length - 10) := by
  unfold newCsrfToken
  by_cases h : (csrfTokens ++ [random]).length > 10
  · rw [if_pos h]
  · rw [if_neg h]
    have : (csrfTokens ++ [random]).length - 10 = 0 := by omega
    rw [this, List.drop_zero]

theorem newCsrfTokenCalls_eq_drop (randoms : List String) :
    ∀ csrfTokens : List String, randoms ≠ [] →
      newCsrfTokenCalls csrfTokens randoms =
        (csrfTokens ++ randoms).drop ((csrfTokens ++ randoms).length - 10) := by
  induction randoms with
  | nil => intro _ h; exact absurd rfl h
  | cons r rest ih =>
    intro csrfTokens _
    cases rest with
    | nil =>
      show (newCsrfToken csrfTokens r).1 = _
      exact newCsrfToken_eq_drop csrfTokens r
    | cons r2 rest2 =>
      show newCsrfTokenCalls (newCsrfToken csrfTokens r).1 (r2 :: rest2) = _
      rw [ih _ (List.cons_ne_nil _ _), newCsrfToken_eq_drop]
      have hk : (csrfTokens ++ [r]).length - 10 ≤ (csrfTokens ++ [r]).length := by omega
      have ha : List.drop ((csrfTokens ++ [r]).length - 10) (csrfTokens ++ [r]) ++ r2 :: rest2 =
          List.drop ((csrfTokens ++ [r]).length - 10) (csrfTokens ++ r :: r2 :: rest2) := by
        rw [show csrfTokens ++ r :: r2 :: rest2 = (csrfTokens ++ [r]) ++ r2 :: rest2 by simp]
        rw [List.drop_append_of_le_length hk]
      rw [ha, List.drop_drop]
      congr 1
      simp only [List.length_drop, List.length_append, List.length_cons, List.length_nil]
      omega

/-- C26: after a call of `newCsrfToken`, whatever `csrfTokens` held before,
it holds at most 10 tokens, namely the last ten (or all, if there are fewer)
of the old list followed by the new token, in that order; the new token is the
last of them and is the token returned; and after any number of calls, one at
least, the list is the last ten of the old list followed by the tokens of the
calls in the order of the calls. -/
theorem newCsrfToken_bounded_store (csrfTokens : List String) (random : String) :
    (newCsrfToken csrfTokens random).1.length ≤ 10 ∧
    (newCsrfToken csrfTokens random).1.length = min 10 (csrfTokens.length + 1) ∧
    (newCsrfToken csrfTokens random).1 <:+ csrfTokens ++ [random] ∧
    (newCsrfToken csrfTokens random).1.getLast? = some random ∧
    (newCsrfToken csrfTokens random).2 = random ∧
    (∀ randoms : List String, randoms ≠ [] →
      newCsrfTokenCalls csrfTokens randoms =
          (csrfTokens ++ randoms).drop ((csrfTokens ++ randoms).length - 10) ∧
        (newCsrfTokenCalls csrfTokens randoms).length ≤ 10 ∧
        (newCsrfTokenCalls csrfTokens randoms).getLast? = randoms.getLast?) ∧
    newCsrfTokenCalls ["a", "b", "c", "d", "e", "f", "g", "h", "i"] ["j", "k", "l"] =
      ["c", "d", "e", "f", "g", "h", "i", "j", "k", "l"] := by
  have hd := newCsrfToken_eq_drop csrfTokens random
  have hlen : (newCsrfToken csrfTokens random).1.length = min 10 (csrfTokens.length + 1) := by
    rw [hd]
    simp only [List.length_drop, List.length_append, List.length_cons, List.length_nil]
    omega
  refine ⟨by omega, hlen, ?_, ?_, rfl, ?_, by decide⟩
  · rw [hd]
    exact List.drop_suffix _ _
  · obtain ⟨kept, hk⟩ := newCsrfToken_last csrfTokens random
    rw [hk]
    simp
  · intro randoms hne
    have hc := newCsrfTokenCalls_eq_drop randoms csrfTokens hne
    refine ⟨hc, ?_, ?_⟩
    · rw [hc]
      simp only [List.length_drop, List.length_append]
      omega
    · obtain ⟨front, z, rfl⟩ : ∃ front z, randoms = front ++ [z] :=
        ⟨randoms.dropLast, randoms.getLast hne, (List.dropLast_append_getLast hne).symm⟩
      rw [hc]
      rw [show csrfTokens ++ (front ++ [z]) = (csrfTokens ++ front) ++ [z] by simp]
      have hle : ((csrfTokens ++ front) ++ [z]).length - 10 ≤ (csrfTokens ++ front).length := by
        simp only [List.length_append, List.length_cons, List.length_nil]
        omega
      rw [List.drop_append_of_le_length hle]
      simp

end Syncthing
